import Mathlib

/-!
# Verification of the distributed-transaction ledger core

A shallow embedding, in Lean 4, of the tamper-evident append-only
transaction ledger implemented in `src/transaction.rs`,
`src/transaction_log.rs` and `src/transaction_queue.rs`.

Modelling conventions:

* Rust strings (`String` / `&str`) are modelled as `List Char`; the bytes of
  a file are modelled as `List Nat` (each element < 256).  UTF-8 encoding and
  decoding are modelled explicitly.
* Machine integers are modelled as `Nat` with explicit `% 2 ^ 32` where the
  SHA-256 arithmetic overflows; the `u32` / `u8` fields of a transaction are
  `Nat`s whose bounds are checked exactly where the source checks them.
* Fallible Rust code returning `Result` is modelled with `Except` / `Option`;
  code that can additionally `panic!` is modelled with an explicit outcome
  type carrying a `panicked` constructor.
* SHA-256 (the `sha2` crate) is modelled as a full executable implementation
  over byte lists; incrementally feeding a hasher (`hasher.input a; hasher.input b`)
  is the digest of the concatenation `a ++ b`.
* `chrono`'s `DateTime<FixedOffset>` is modelled by the wall-clock fields the
  program renders and parses (`ddmmyy-HH:MM:SS`).  Every timestamp the
  program constructs carries the one fixed offset `TZ_OFFSET = +02:00`
  (`Transaction::parse` and `with_current_timestamp` both force it), so the
  offset is not part of the model.  `chrono`'s `%y` maps two-digit years
  `00-68` to `2000-2068` and `69-99` to `1969-1999`.
-/

set_option maxRecDepth 4000

/-- Rust string literal as a `List Char`. -/
def rstr (s : String) : List Char := s.data

/-! ## SHA-256 over byte lists (model of the `sha2` crate) -/

/-- Truncation to a 32-bit word. -/
def w32 (n : Nat) : Nat := n % 4294967296

/-- 32-bit rotate right. -/
def rotr (x n : Nat) : Nat := w32 ((x >>> n) ||| (x <<< (32 - n)))

def bsig0 (x : Nat) : Nat := (rotr x 2) ^^^ (rotr x 13) ^^^ (rotr x 22)

def bsig1 (x : Nat) : Nat := (rotr x 6) ^^^ (rotr x 11) ^^^ (rotr x 25)

def ssig0 (x : Nat) : Nat := (rotr x 7) ^^^ (rotr x 18) ^^^ (x >>> 3)

def ssig1 (x : Nat) : Nat := (rotr x 17) ^^^ (rotr x 19) ^^^ (x >>> 10)

def ch (x y z : Nat) : Nat := (x &&& y) ^^^ ((x ^^^ 4294967295) &&& z)

def maj (x y z : Nat) : Nat := (x &&& y) ^^^ (x &&& z) ^^^ (y &&& z)

def sha256K : List Nat :=
  [1116352408, 1899447441, 3049323471, 3921009573, 961987163, 1508970993,
   2453635748, 2870763221, 3624381080, 310598401, 607225278, 1426881987,
   1925078388, 2162078206, 2614888103, 3248222580, 3835390401, 4022224774,
   264347078, 604807628, 770255983, 1249150122, 1555081692, 1996064986,
   2554220882, 2821834349, 2952996808, 3210313671, 3336571891, 3584528711,
   113926993, 338241895, 666307205, 773529912, 1294757372, 1396182291,
   1695183700, 1986661051, 2177026350, 2456956037, 2730485921, 2820302411,
   3259730800, 3345764771, 3516065817, 3600352804, 4094571909, 275423344,
   430227734, 506948616, 659060556, 883997877, 958139571, 1322822218,
   1537002063, 1747873779, 1955562222, 2024104815, 2227730452, 2361852424,
   2428436474, 2756734187, 3204031479, 3329325298]

def sha256H0 : List Nat :=
  [1779033703, 3144134277, 1013904242, 2773480762, 1359893119, 2600822924, 528734635, 1541459225]

def nthW (l : List Nat) (i : Nat) : Nat := (l.get? i).getD 0

/-- Extend the message schedule; `acc` holds the words produced so far,
newest first, and `n` more are added. -/
def schedExt : Nat → List Nat → List Nat
  | 0, acc => acc
  | n + 1, acc =>
      schedExt n
        (w32 (ssig1 (nthW acc 1) + nthW acc 6 + ssig0 (nthW acc 14) + nthW acc 15) :: acc)

/-- Big-endian 32-bit words from bytes (the length is a multiple of 4). -/
def bytesToWords : List Nat → List Nat
  | a :: b :: c :: d :: rest => (((a * 256 + b) * 256 + c) * 256 + d) :: bytesToWords rest
  | _ => []

/-- One SHA-256 compression round; the state is the list `[a,b,c,d,e,f,g,h]`. -/
def roundFn : List Nat → Nat × Nat → List Nat
  | [a, b, c, d, e, f, g, h], (k, w) =>
      let t1 := w32 (h + bsig1 e + ch e f g + k + w)
      let t2 := w32 (bsig0 a + maj a b c)
      [w32 (t1 + t2), a, b, c, w32 (d + t1), e, f, g]
  | st, _ => st

/-- Compress one 64-byte block into the running digest state. -/
def compressBlock (hs : List Nat) (block : List Nat) : List Nat :=
  let ws := (schedExt 48 (bytesToWords block).reverse).reverse
  let fin := List.foldl roundFn hs (sha256K.zip ws)
  List.zipWith (fun a b => w32 (a + b)) hs fin

/-- Split into 64-byte chunks (fuel-driven so it reduces in the kernel). -/
def chunks64 : Nat → List Nat → List (List Nat)
  | 0, _ => []
  | _ + 1, [] => []
  | fuel + 1, l => l.take 64 :: chunks64 fuel (l.drop 64)

/-- The `n` big-endian bytes of `x`. -/
def beBytes (n : Nat) (x : Nat) : List Nat :=
  (List.range n).map (fun i => (x >>> (8 * (n - 1 - i))) % 256)

/-- SHA-256 padding: `0x80`, zeros to 56 mod 64, then the 64-bit bit length. -/
def sha256pad (msg : List Nat) : List Nat :=
  msg ++ 128 :: List.replicate ((119 - (msg.length % 64)) % 64) 0 ++ beBytes 8 (8 * msg.length)

/-- SHA-256 of a byte list. -/
def sha256 (msg : List Nat) : List Nat :=
  let padded := sha256pad msg
  let hs := List.foldl compressBlock sha256H0 (chunks64 (padded.length + 1) padded)
  hs.flatMap (beBytes 4)

/-- FIPS 180-4 test vector for the model of the `sha2` crate. -/
example : sha256 [97, 98, 99] =
    [0xBA, 0x78, 0x16, 0xBF, 0x8F, 0x01, 0xCF, 0xEA, 0x41, 0x41, 0x40, 0xDE, 0x5D, 0xAE, 0x22, 0x23,
     0xB0, 0x03, 0x61, 0xA3, 0x96, 0x17, 0x7A, 0x9C, 0xB4, 0x10, 0xFF, 0x61, 0xF2, 0x00, 0x15, 0xAD] := by
  decide

/-! ## UTF-8 (model of Rust `str` bytes, `String::from_utf8` / `read_to_string`) -/

/-- UTF-8 encoding of one scalar value. -/
def utf8Char (c : Char) : List Nat :=
  let n := c.toNat
  if n < 128 then [n]
  else if n < 2048 then [192 + n / 64, 128 + n % 64]
  else if n < 65536 then [224 + n / 4096, 128 + n / 64 % 64, 128 + n % 64]
  else [240 + n / 262144, 128 + n / 4096 % 64, 128 + n / 64 % 64, 128 + n % 64]

/-- The UTF-8 bytes of a Rust string. -/
def utf8 (s : List Char) : List Nat := s.flatMap utf8Char

/-- Whether a byte is a UTF-8 continuation byte `10xxxxxx`. -/
def isCont (b : Nat) : Bool := 128 ≤ b && b ≤ 191

/-- Strict UTF-8 decoding (fuel-driven); rejects overlong forms, surrogates
and out-of-range values exactly as Rust's `str` validation does. -/
def utf8DecodeAux : Nat → List Nat → Option (List Char)
  | 0, [] => some []
  | 0, _ :: _ => none
  | _ + 1, [] => some []
  | fuel + 1, b :: rest =>
    if b < 128 then
      (utf8DecodeAux fuel rest).map (fun cs => Char.ofNat b :: cs)
    else if 194 ≤ b && b ≤ 223 then
      match rest with
      | c1 :: r =>
        if isCont c1 then
          (utf8DecodeAux fuel r).map (fun cs => Char.ofNat ((b - 192) * 64 + (c1 - 128)) :: cs)
        else none
      | _ => none
    else if 224 ≤ b && b ≤ 239 then
      match rest with
      | c1 :: c2 :: r =>
        let lo1 := if b = 224 then 160 else 128
        let hi1 := if b = 237 then 159 else 191
        if (lo1 ≤ c1 && c1 ≤ hi1) && isCont c2 then
          (utf8DecodeAux fuel r).map
            (fun cs => Char.ofNat ((b - 224) * 4096 + (c1 - 128) * 64 + (c2 - 128)) :: cs)
        else none
      | _ => none
    else if 240 ≤ b && b ≤ 244 then
      match rest with
      | c1 :: c2 :: c3 :: r =>
        let lo1 := if b = 240 then 144 else 128
        let hi1 := if b = 244 then 143 else 191
        if (lo1 ≤ c1 && c1 ≤ hi1) && isCont c2 && isCont c3 then
          (utf8DecodeAux fuel r).map
            (fun cs =>
              Char.ofNat ((b - 240) * 262144 + (c1 - 128) * 4096 + (c2 - 128) * 64 + (c3 - 128)) :: cs)
        else none
      | _ => none
    else none

def utf8Decode (bs : List Nat) : Option (List Char) := utf8DecodeAux bs.length bs

example : utf8 (rstr "Testü") = [84, 101, 115, 116, 252 / 64 + 192, 128 + 252 % 64] := by decide

example : utf8Decode (utf8 (rstr "Testü")) = some (rstr "Testü") := by decide

/-! ## Decimal and hexadecimal text -/

def isDigit (c : Char) : Bool := 48 ≤ c.toNat && c.toNat ≤ 57

def dval (c : Char) : Nat := c.toNat - 48

/-- Decimal digits of `n`, most significant first (fuel-driven). -/
def decAux : Nat → Nat → List Char
  | 0, _ => []
  | fuel + 1, n =>
      if n < 10 then [Char.ofNat (48 + n)]
      else decAux fuel (n / 10) ++ [Char.ofNat (48 + n % 10)]

/-- Decimal rendering of a `Nat` (Rust `{}` for an unsigned integer). -/
def natDec (n : Nat) : List Char := decAux (n + 1) n

/-- Zero-padding to width `w` (Rust `{:0w}` formatting of an unsigned integer). -/
def padZeros (w : Nat) (s : List Char) : List Char :=
  List.replicate (w - s.length) '0' ++ s

/-- Rust `{:08}`. -/
def fmt08 (n : Nat) : List Char := padZeros 8 (natDec n)

/-- Rust `{:02}`. -/
def fmt02 (n : Nat) : List Char := padZeros 2 (natDec n)

/-- Accumulating decimal value; fails on the first non-digit, as Rust's
`from_str` does. -/
def digitsValAux : Nat → List Char → Option Nat
  | acc, [] => some acc
  | acc, c :: r => if isDigit c then digitsValAux (10 * acc + dval c) r else none

/-- An optional leading `+` sign is dropped (Rust's integer `from_str`). -/
def stripPlus (s : List Char) : List Char :=
  match s with
  | c :: r => if c = '+' then r else s
  | [] => s

/-- Model of `u32::from_str` / `u8::from_str` with upper bound `bound`: an
optional leading `+`, then one or more decimal digits whose value fits.
(Rust detects overflow during accumulation; because the accumulator is
monotone this is equivalent to the final bound check here.) -/
def rustParseNat (bound : Nat) (s : List Char) : Option Nat :=
  let t := stripPlus s
  match t with
  | [] => none
  | _ =>
    match digitsValAux 0 t with
    | some v => if v ≤ bound then some v else none
    | none => none

/-- Uppercase hexadecimal digit (Rust `{:02X}`). -/
def hexDigitUp (d : Nat) : Char := if d < 10 then Char.ofNat (48 + d) else Char.ofNat (55 + d)

/-- Hexadecimal value of one digit, either case (`u8::from_str_radix(_, 16)`
accepts both cases). -/
def hexVal (c : Char) : Option Nat :=
  let n := c.toNat
  if 48 ≤ n && n ≤ 57 then some (n - 48)
  else if 65 ≤ n && n ≤ 70 then some (n - 55)
  else if 97 ≤ n && n ≤ 102 then some (n - 87)
  else none

/-- Model of `u8::from_str_radix(&format!("{}{}", c1, c2), 16)`: Rust's
`from_str_radix` also accepts an optional leading `+` followed by at least
one digit, so both `h₁h₂` and `+h` succeed. -/
def radix16pair (c1 c2 : Char) : Option Nat :=
  if c1 = '+' then hexVal c2
  else
    match hexVal c1, hexVal c2 with
    | some a, some b => some (16 * a + b)
    | _, _ => none

/-- Rust `char::is_whitespace` (the Unicode `White_Space` property). -/
def rustIsWhitespace (c : Char) : Bool :=
  let n := c.toNat
  (9 ≤ n && n ≤ 13) || n = 32 || n = 133 || n = 160 || n = 5760 ||
    (8192 ≤ n && n ≤ 8202) || n = 8232 || n = 8233 || n = 8239 || n = 8287 || n = 12288

/-- Rust `str::trim`. -/
def rustTrim (s : List Char) : List Char :=
  ((s.dropWhile rustIsWhitespace).reverse.dropWhile rustIsWhitespace).reverse

/-! ## Timestamps (model of `chrono::DateTime<FixedOffset>` as used here) -/

structure TTime where
  year : Nat
  month : Nat
  day : Nat
  hour : Nat
  minute : Nat
  second : Nat
  deriving DecidableEq, Repr

def leapYear (y : Nat) : Bool := y % 4 = 0 && (y % 100 ≠ 0 || y % 400 = 0)

def daysInMonth (y m : Nat) : Nat :=
  if m = 2 then (if leapYear y then 29 else 28)
  else if m = 4 || m = 6 || m = 9 || m = 11 then 30
  else 31

/-- The wall-clock values `chrono` guarantees for any constructed
`DateTime` (whole-second precision, as the spec fixes). -/
def TTime.calValid (t : TTime) : Bool :=
  1 ≤ t.month && t.month ≤ 12 && 1 ≤ t.day && t.day ≤ daysInMonth t.year t.month &&
    t.hour < 24 && t.minute < 60 && t.second < 60

/-- `chrono` rendering with the pattern `%d%m%y-%H:%M:%S`. -/
def fmtTs (t : TTime) : List Char :=
  fmt02 t.day ++ fmt02 t.month ++ fmt02 (t.year % 100) ++
    '-' :: fmt02 t.hour ++ ':' :: fmt02 t.minute ++ ':' :: fmt02 t.second

/-- One numeric item of chrono's `parse` (`format/parse.rs`): leading
whitespace is trimmed (`s.trim_left()`), then 1 up to 2 ASCII digits are
consumed greedily (`scan::number(s, 1, 2)`, all the pattern's fields have
width 2 and are unsigned). -/
def scanNum2 (s : List Char) : Option (Nat × List Char) :=
  match s.dropWhile rustIsWhitespace with
  | c1 :: rest =>
    if isDigit c1 then
      match rest with
      | c2 :: rest2 =>
        if isDigit c2 then some (10 * dval c1 + dval c2, rest2) else some (dval c1, rest)
      | [] => some (dval c1, [])
    else none
  | [] => none

/-- A literal item of chrono's `parse`: the exact character, no trimming. -/
def scanLit (c : Char) (s : List Char) : Option (List Char) :=
  match s with
  | c1 :: rest => if c1 = c then some rest else none
  | [] => none

/-- `Parsed::to_naive_date`/`to_naive_time`: resolve `%y` with the pivot
(`00-68` is `2000-2068`, `69-99` is `1969-1999`) and validate the calendar
values. -/
def tsMake (d mo yy h mi sec : Nat) : Option TTime :=
  let t : TTime :=
    { year := if yy ≤ 68 then 2000 + yy else 1900 + yy,
      month := mo, day := d, hour := h, minute := mi, second := sec }
  if t.calValid then some t else none

def tsEnd (d mo yy h mi sec : Nat) : List Char → Option TTime
  | [] => tsMake d mo yy h mi sec
  | _ :: _ => none

def tsSec (d mo yy h mi : Nat) : Option (Nat × List Char) → Option TTime
  | none => none
  | some (sec, r) => tsEnd d mo yy h mi sec r

def tsC2 (d mo yy h mi : Nat) : Option (List Char) → Option TTime
  | none => none
  | some r => tsSec d mo yy h mi (scanNum2 r)

def tsMin (d mo yy h : Nat) : Option (Nat × List Char) → Option TTime
  | none => none
  | some (mi, r) => tsC2 d mo yy h mi (scanLit ':' r)

def tsC1 (d mo yy h : Nat) : Option (List Char) → Option TTime
  | none => none
  | some r => tsMin d mo yy h (scanNum2 r)

def tsHour (d mo yy : Nat) : Option (Nat × List Char) → Option TTime
  | none => none
  | some (h, r) => tsC1 d mo yy h (scanLit ':' r)

def tsDash (d mo yy : Nat) : Option (List Char) → Option TTime
  | none => none
  | some r => tsHour d mo yy (scanNum2 r)

def tsYear (d mo : Nat) : Option (Nat × List Char) → Option TTime
  | none => none
  | some (yy, r) => tsDash d mo yy (scanLit '-' r)

def tsMonth (d : Nat) : Option (Nat × List Char) → Option TTime
  | none => none
  | some (mo, r) => tsYear d mo (scanNum2 r)

def tsDay : Option (Nat × List Char) → Option TTime
  | none => none
  | some (d, r) => tsMonth d (scanNum2 r)

/-- Model of `FixedOffset::east(TZ_OFFSET).datetime_from_str(s, "%d%m%y-%H:%M:%S")`:
chrono's `parse` consumes the items in order — each numeric field is up to
two digits after left-trimming (at least one), each separator is literal —
requires the whole input consumed (`TOO_LONG` otherwise), resolves `%y` with
the POSIX pivot and validates the calendar values; the fixed offset plays no
role in parsing and is dropped by the model. -/
def parseTs (s : List Char) : Option TTime :=
  tsDay (scanNum2 s)

/-- chrono accepts one-digit fields: `10117` reads as day 10, month 11,
year 2007. -/
example : parseTs (rstr "10117-10:00:00") =
    some { year := 2007, month := 11, day := 10, hour := 10, minute := 0, second := 0 } := by
  decide

/-- chrono trims whitespace before each numeric field. -/
example : parseTs (rstr " 4 1017-10:00:00") =
    some { year := 2017, month := 10, day := 4, hour := 10, minute := 0, second := 0 } := by
  decide

example : parseTs (rstr "041017-10:00:0") =
    some { year := 2017, month := 10, day := 4, hour := 10, minute := 0, second := 0 } := by
  decide

example : parseTs (rstr "041017-10:00:00x") = none := by decide

example : parseTs (rstr "041017-10:00:00") =
    some { year := 2017, month := 10, day := 4, hour := 10, minute := 0, second := 0 } := by
  decide

example : fmtTs { year := 2017, month := 10, day := 4, hour := 10, minute := 0, second := 0 } =
    rstr "041017-10:00:00" := by decide

/-- Rust `str::split(";")`: the pieces between the semicolons (an empty
input yields one empty piece). -/
def splitSemi : List Char → List (List Char)
  | [] => [[]]
  | c :: r =>
    if c = ';' then [] :: splitSemi r
    else
      match splitSemi r with
      | [] => [[c]]
      | h :: t => (c :: h) :: t

/-- The hex-to-bytes loop of `Transaction::parse`: pairs of characters fed
to `u8::from_str_radix(_, 16)`, an odd tail is a length error. -/
def parseHexBytes : List Char → Except (List Char) (List Nat)
  | [] => .ok []
  | [_] => .error (rstr "Invalid hash length")
  | c1 :: c2 :: r =>
    match radix16pair c1 c2 with
    | some b => (parseHexBytes r).map (fun bs => b :: bs)
    | none => .error (rstr "could not parse hash")

/-! ## The record model (`src/transaction.rs`) -/

/-- `Transaction` of `src/transaction.rs`: `hash` holds the raw digest
bytes and `hash_str` the uppercase-hex rendering stored alongside it. -/
structure Transaction where
  id : Nat
  timestamp : TTime
  group_id : Nat
  process_id : Nat
  text : List Char
  hash : List Nat
  hash_str : List Char
  deriving DecidableEq, Repr

namespace Transaction

def MIN_ID : Nat := 1
def MAX_ID : Nat := 99999999
def MIN_GID : Nat := 0
def MAX_GID : Nat := 99
def MIN_PID : Nat := 0
def MAX_PID : Nat := 99

def INVALID_CHAR : List Char := ['\n', '\r', '\t', ';', Char.ofNat 0]

/-- `Transaction::check_input`. -/
def check_input (id : Nat) (gid : Nat) (pid : Nat) (text : List Char) :
    Except (List Char) Unit :=
  if id < MIN_ID || id > MAX_ID then
    .error (rstr "Invalid id " ++ natDec id)
  else if gid > MAX_GID then
    .error (rstr "Invalid group id " ++ natDec gid)
  else if pid > MAX_PID then
    .error (rstr "Invalid process id " ++ natDec pid)
  else if INVALID_CHAR.any (fun c => text.contains c) then
    .error (rstr "Invalid text message `" ++ text ++ rstr "`")
  else
    .ok ()

/-- `Transaction::partial_string`: the canonical data prefix
`{id:08};{ts};{gid:02};{pid:02};{msg};` that is hashed. -/
def partial_string (id : Nat) (ts : TTime) (gid : Nat) (pid : Nat) (text : List Char) :
    List Char :=
  fmt08 id ++ ';' :: fmtTs ts ++ ';' :: fmt02 gid ++ ';' :: fmt02 pid ++ ';' :: text ++ [';']

/-- `Transaction::hash_string`: `format!("{:02X}", bytes)`. -/
def hash_string (hash : List Nat) : List Char :=
  hash.flatMap (fun b => [hexDigitUp (b / 16), hexDigitUp (b % 16)])

/-- `Transaction::to_data_string`. -/
def to_data_string (t : Transaction) : List Char :=
  partial_string t.id t.timestamp t.group_id t.process_id t.text

/-- `Transaction::to_string` (no trailing newline). -/
def to_string (t : Transaction) : List Char := t.to_data_string ++ t.hash_str

/-- `Transaction::next_id`. -/
def next_id (t : Transaction) : Nat := if t.id ≥ MAX_ID then MIN_ID else t.id + 1

/-- `Transaction::with_hash`. -/
def with_hash (hash : List Nat) (id : Nat) (time : TTime) (gid : Nat) (pid : Nat)
    (text : List Char) : Except (List Char) Transaction :=
  match check_input id gid pid text with
  | .error e => .error e
  | .ok _ =>
      .ok { id := id, timestamp := time, group_id := gid, process_id := pid, text := text,
            hash := hash, hash_str := hash_string hash }

/-- `Transaction::verify`. -/
def verify (curr : Transaction) (prev : Transaction) : Except (List Char) Unit :=
  if curr.id ≠ prev.next_id then
    .error (rstr "Non-consecutive IDs")
  else
    let expected_hash := sha256 (utf8 curr.to_data_string ++ utf8 prev.hash_str)
    if expected_hash ≠ curr.hash then
      .error (rstr "Missmatched hashes")
    else
      .ok ()

/-- `Transaction::verify_single`. -/
def verify_single (tx : Transaction) : Except (List Char) Unit :=
  let expected_hash := sha256 (utf8 tx.to_data_string)
  if expected_hash ≠ tx.hash then
    .error (rstr "Missmatched hashes")
  else
    .ok ()

/-- The tail of `Transaction::parse` once the line is split at `';'`.  The
source consumes the pieces from an iterator in order, failing at the first
bad piece with the messages below; the helpers `parse_after_*` spell out the
same sequential consumption one field at a time (the missing-timestamp
message is the source's own duplicated `"Incomplete source, no id"`). -/
def parse_finish : Except (List Char) Transaction → List (List Char) →
    Except (List Char) Transaction
  | .error e, _ => .error e
  | .ok t, [] => .ok t
  | .ok _, _ :: _ => .error (rstr "Invalid source, too many parts")

def parse_after_hash (id : Nat) (ts : TTime) (gid pid : Nat) (x : List Char) :
    Except (List Char) (List Nat) → List (List Char) → Except (List Char) Transaction
  | .error e, _ => .error e
  | .ok hash, rest => parse_finish (with_hash hash id ts gid pid x) rest

def parse_after_text (id : Nat) (ts : TTime) (gid pid : Nat) (x : List Char) :
    List (List Char) → Except (List Char) Transaction
  | [] => .error (rstr "Incomplete source, no hash")
  | hS :: rest => parse_after_hash id ts gid pid x (parseHexBytes (rustTrim hS)) rest

def parse_after_pid (id : Nat) (ts : TTime) (gid : Nat) :
    Option Nat → List (List Char) → Except (List Char) Transaction
  | none, _ => .error (rstr "Could not parse pid")
  | some _, [] => .error (rstr "Incomplete source, no text")
  | some pid, xS :: rest => parse_after_text id ts gid pid xS rest

def parse_after_gid (id : Nat) (ts : TTime) :
    Option Nat → List (List Char) → Except (List Char) Transaction
  | none, _ => .error (rstr "Could not parse gid")
  | some _, [] => .error (rstr "Incomplete source, no pid")
  | some gid, pS :: rest => parse_after_pid id ts gid (rustParseNat 255 pS) rest

def parse_after_ts (id : Nat) :
    Option TTime → List (List Char) → Except (List Char) Transaction
  | none, _ => .error (rstr "Could not parse timstamp")
  | some _, [] => .error (rstr "Incomplete source, no gid")
  | some ts, gS :: rest => parse_after_gid id ts (rustParseNat 255 gS) rest

def parse_after_id :
    Option Nat → List (List Char) → Except (List Char) Transaction
  | none, _ => .error (rstr "Could not parse id")
  | some _, [] => .error (rstr "Incomplete source, no id")
  | some id, tsS :: rest => parse_after_ts id (parseTs tsS) rest

def parse_fields : List (List Char) → Except (List Char) Transaction
  | [] => .error (rstr "Incomplete source, no id")
  | idS :: rest => parse_after_id (rustParseNat 4294967295 idS) rest

/-- `Transaction::parse`: split on `';'` and consume the six fields. -/
def parse (src : List Char) : Except (List Char) Transaction :=
  parse_fields (splitSemi src)

end Transaction

/-! ## The in-memory log (`FullTransactionLog`, `src/transaction_log.rs`) -/

/-- Ordered insert by id, replacing an entry with the same id: the model of
`BTreeMap::insert(tx.id().inner(), tx)` on a strictly id-ascending list. -/
def btreeInsert : List Transaction → Transaction → List Transaction
  | [], tx => [tx]
  | t :: r, tx =>
    if tx.id < t.id then tx :: t :: r
    else if tx.id = t.id then tx :: r
    else t :: btreeInsert r tx

/-- `FullTransactionLog`: a `BTreeMap<u32, Transaction>` keyed by id,
modelled as its value list in ascending key order (every entry is inserted
under its own id, so the key is the record's id). -/
structure FullTransactionLog where
  log : List Transaction
  deriving DecidableEq, Repr

namespace FullTransactionLog

def new : FullTransactionLog := ⟨[]⟩

/-- `FullTransactionLog::last`: the maximum-key entry. -/
def last (l : FullTransactionLog) : Option Transaction := l.log.getLast?

/-- The `TransactionLog::next_id` default method:
`last()?.map(|t| t.id().next()).unwrap_or_default()`.  Modelled from the
spec: the default id of the missing `TransactionId` type is `MIN_ID`
(§4.4, "`MIN_ID` if empty"). -/
def next_id (l : FullTransactionLog) : Nat :=
  match l.last with
  | some t => t.next_id
  | none => Transaction.MIN_ID

/-- Modelled from the spec: the missing `TransactionLog::append` used by the
write queue and the tests; it stores the record in the map under its own id,
exactly as `create`'s insert does. -/
def append (l : FullTransactionLog) (tx : Transaction) : FullTransactionLog :=
  ⟨btreeInsert l.log tx⟩

def get_by_id (l : FullTransactionLog) (id : Nat) : Option Transaction :=
  l.log.find? (fun t => t.id = id)

def get_all (l : FullTransactionLog) : List Transaction := l.log

end FullTransactionLog

namespace Transaction

/-- `Transaction::with_log` (for the in-memory log): hashes the partial
string, then the predecessor's hex hash string when the log is nonempty. -/
def with_log (log : FullTransactionLog) (id : Nat) (time : TTime) (gid : Nat) (pid : Nat)
    (text : List Char) : Except (List Char) Transaction :=
  match check_input id gid pid text with
  | .error e => .error e
  | .ok _ =>
    let input :=
      match log.last with
      | some prev => utf8 (partial_string id time gid pid text) ++ utf8 prev.hash_str
      | none => utf8 (partial_string id time gid pid text)
    let hash := sha256 input
    .ok { id := id, timestamp := time, group_id := gid, process_id := pid, text := text,
          hash := hash, hash_str := hash_string hash }

end Transaction

/-! ## The builder (`TransactionBuilder`) -/

structure TransactionBuilder where
  id : Option Nat := none
  timestamp : Option TTime := none
  group_id : Option Nat := none
  process_id : Option Nat := none
  text : Option (List Char) := none
  deriving DecidableEq, Repr

/-- `Transaction::build`. -/
def Transaction.build : TransactionBuilder := {}

namespace TransactionBuilder

def with_id (b : TransactionBuilder) (id : Nat) : TransactionBuilder := { b with id := some id }

def with_timestamp (b : TransactionBuilder) (ts : TTime) : TransactionBuilder :=
  { b with timestamp := some ts }

def with_group_id (b : TransactionBuilder) (gid : Nat) : TransactionBuilder :=
  { b with group_id := some gid }

def with_process_id (b : TransactionBuilder) (pid : Nat) : TransactionBuilder :=
  { b with process_id := some pid }

def with_text (b : TransactionBuilder) (text : List Char) : TransactionBuilder :=
  { b with text := some text }

/-- `TransactionBuilder::try_finish_with_log`. -/
def try_finish_with_log (b : TransactionBuilder) (log : FullTransactionLog) :
    Except (List Char) Transaction :=
  match b.id with
  | none => .error (rstr "No id given")
  | some id =>
    match b.timestamp with
    | none => .error (rstr "No timestamp given")
    | some ts =>
      match b.group_id with
      | none => .error (rstr "No group id given")
      | some gid =>
        match b.process_id with
        | none => .error (rstr "No process id given")
        | some pid =>
          match b.text with
          | none => .error (rstr "No text given")
          | some text => Transaction.with_log log id ts gid pid text

end TransactionBuilder

/-! ## The write queue (`src/transaction_queue.rs`) -/

structure QueuedTransaction where
  text : List Char
  gid : Nat
  pid : Nat
  deriving DecidableEq, Repr

/-- The body of `TransactionQueue::flush` for the in-memory log: each queued
draft, in FIFO order, is given `log.next_id()`, a current timestamp (the
worker's clock at the moment of that draft's materialization, supplied by
`clock`), is finished against the log and appended to it.  `none` models a
panicking `unwrap` (a draft whose fields fail `check_input`).  The produced
records are returned alongside the final log to state the claim about them. -/
def flushAux (clock : Nat → TTime) :
    FullTransactionLog → List QueuedTransaction → Nat →
      Option (FullTransactionLog × List Transaction)
  | log, [], _ => some (log, [])
  | log, q :: rest, i =>
    let id := log.next_id
    let built :=
      ((((Transaction.build.with_id id).with_timestamp (clock i)).with_group_id
            q.gid).with_process_id q.pid).with_text q.text
    match built.try_finish_with_log log with
    | .error _ => none
    | .ok tx =>
      (flushAux clock (log.append tx) rest (i + 1)).map (fun p => (p.1, tx :: p.2))

/-- `TransactionQueue::flush(log, q)`: the drafts are drained (`q.drain(..)`
leaves the buffer empty), so the queue after the flush is returned as `[]`. -/
def TransactionQueue.flush (log : FullTransactionLog) (q : List QueuedTransaction)
    (clock : Nat → TTime) :
    Option (FullTransactionLog × List QueuedTransaction × List Transaction) :=
  (flushAux clock log q 0).map (fun p => (p.1, [], p.2))

deriving instance DecidableEq for Except

/-! ## Scenario checks from the spec (§8) -/

def scenarioTs : TTime := { year := 2017, month := 10, day := 4, hour := 10, minute := 0, second := 0 }

/-- Spec §8, first scenario: the first record created on an empty ledger
renders to the given canonical line. -/
example :
    (Transaction.with_log FullTransactionLog.new 1 scenarioTs 0 1 (rstr "Testü")).map
        Transaction.to_string =
      .ok (rstr "00000001;041017-10:00:00;00;01;Testü;267C4D5033ED7F96B43216FD8C871E4B96F1221204312AD6F43362F2D12C9B29") := by
  decide

def scenarioTs2 : TTime := { year := 2017, month := 10, day := 4, hour := 10, minute := 1, second := 0 }

/-- The first scenario record (id 1, built on the empty ledger). -/
def scTx1 : Transaction :=
  { id := 1, timestamp := scenarioTs, group_id := 0, process_id := 1, text := rstr "Testü",
    hash := sha256 (utf8 (Transaction.partial_string 1 scenarioTs 0 1 (rstr "Testü"))),
    hash_str := Transaction.hash_string
      (sha256 (utf8 (Transaction.partial_string 1 scenarioTs 0 1 (rstr "Testü")))) }

def scLog1 : FullTransactionLog := ⟨[scTx1]⟩

/-- A second record chained onto `scTx1`: its hash input is the partial
string followed by `scTx1`'s hex hash string. -/
def scTx2 : Transaction :=
  { id := 2, timestamp := scenarioTs2, group_id := 0, process_id := 1, text := rstr "Test2",
    hash := sha256 (utf8 (Transaction.partial_string 2 scenarioTs2 0 1 (rstr "Test2")) ++
      utf8 scTx1.hash_str),
    hash_str := Transaction.hash_string
      (sha256 (utf8 (Transaction.partial_string 2 scenarioTs2 0 1 (rstr "Test2")) ++
        utf8 scTx1.hash_str)) }

example : Transaction.with_log FullTransactionLog.new 1 scenarioTs 0 1 (rstr "Testü") = .ok scTx1 := by
  decide

example : Transaction.with_log scLog1 2 scenarioTs2 0 1 (rstr "Test2") = .ok scTx2 := by decide

/-- Spec §8: parsing the first scenario line yields the first scenario record. -/
example :
    Transaction.parse
        (rstr "00000001;041017-10:00:00;00;01;Testü;267C4D5033ED7F96B43216FD8C871E4B96F1221204312AD6F43362F2D12C9B29") =
      .ok scTx1 := by
  decide

/-- The builder with all five fields set finishes through `with_log`. -/
lemma try_finish_builder (log : FullTransactionLog) (id : Nat) (ts : TTime) (gid pid : Nat)
    (text : List Char) :
    (((((Transaction.build.with_id id).with_timestamp ts).with_group_id gid).with_process_id
          pid).with_text text).try_finish_with_log log =
      Transaction.with_log log id ts gid pid text := rfl

/-- C9: for every record whose id lies within `[MIN_ID, MAX_ID] = [1, 99999999]`,
`next_id()` is `id + 1`, except at `MAX_ID` where it wraps to `MIN_ID = 1`;
`next_id` is a total function (its Lean type is total and the source has no
failure path). -/
theorem c9_next_id (t : Transaction) (h1 : Transaction.MIN_ID ≤ t.id)
    (h2 : t.id ≤ Transaction.MAX_ID) :
    t.next_id = if t.id = Transaction.MAX_ID then Transaction.MIN_ID else t.id + 1 := by
  unfold Transaction.next_id
  unfold Transaction.MIN_ID Transaction.MAX_ID at *
  by_cases h : t.id = 99999999
  · simp [h]
  · have hlt : ¬ t.id ≥ 99999999 := by omega
    simp [h, hlt]

/-- Witness for C9 at the wrap boundary `MAX_ID`. -/
theorem c9_next_id_witness :
    ({ scTx1 with id := 99999999 } : Transaction).next_id =
      if ({ scTx1 with id := 99999999 } : Transaction).id = Transaction.MAX_ID then
        Transaction.MIN_ID
      else ({ scTx1 with id := 99999999 } : Transaction).id + 1 :=
  c9_next_id { scTx1 with id := 99999999 } (by decide) (by decide)

/-- C2: `verify(curr, prev)` yields the non-consecutive-id error exactly when
`curr.id ≠ prev.next_id()`; otherwise the mismatched-hash error exactly when
the digest recomputed from `curr`'s data string and `prev`'s hex hash string
differs from `curr`'s stored hash; otherwise `Ok`.  The id check precedes and
takes precedence over the hash check (the mismatched-hash outcome forces
`curr.id = prev.next_id`). -/
theorem c2_verify_checks (curr prev : Transaction) :
    (Transaction.verify curr prev = .error (rstr "Non-consecutive IDs") ↔
      curr.id ≠ prev.next_id) ∧
    (Transaction.verify curr prev = .error (rstr "Missmatched hashes") ↔
      (curr.id = prev.next_id ∧
        sha256 (utf8 curr.to_data_string ++ utf8 prev.hash_str) ≠ curr.hash)) ∧
    (Transaction.verify curr prev = .ok () ↔
      (curr.id = prev.next_id ∧
        sha256 (utf8 curr.to_data_string ++ utf8 prev.hash_str) = curr.hash)) := by
  have hne : rstr "Non-consecutive IDs" ≠ rstr "Missmatched hashes" := by decide
  unfold Transaction.verify
  by_cases h1 : curr.id = prev.next_id
  · by_cases h2 : sha256 (utf8 curr.to_data_string ++ utf8 prev.hash_str) = curr.hash
    · simp [h1, h2]
    · simp [h1, h2, hne] <;> decide
  · simp [h1] <;> decide

/-- C1: a record constructed against a chain through `Transaction::with_log`
(equivalently the builder's `try_finish_with_log`) stores as its hash the
SHA-256 digest of the canonical partial string concatenated with the
predecessor's uppercase-hex hash *string* (its UTF-8 bytes, not the raw
digest bytes) when the ledger has a last record, and of the partial string
alone when the ledger is empty; `hash_str` is the uppercase-hex rendering of
those digest bytes. -/
theorem c1_hash_rule (log : FullTransactionLog) (id : Nat) (time : TTime) (gid pid : Nat)
    (text : List Char) (tx : Transaction)
    (h : Transaction.with_log log id time gid pid text = .ok tx) :
    (tx.hash =
      match log.last with
      | some prev =>
          sha256 (utf8 (Transaction.partial_string id time gid pid text) ++ utf8 prev.hash_str)
      | none => sha256 (utf8 (Transaction.partial_string id time gid pid text))) ∧
    tx.hash_str = Transaction.hash_string tx.hash ∧
    (((((Transaction.build.with_id id).with_timestamp time).with_group_id gid).with_process_id
          pid).with_text text).try_finish_with_log log = .ok tx := by
  have h3 := h
  rw [← try_finish_builder] at h3
  unfold Transaction.with_log at h
  cases hc : Transaction.check_input id gid pid text with
  | error e => rw [hc] at h; exact absurd h (by simp)
  | ok u =>
    rw [hc] at h
    cases hl : log.last with
    | some prev =>
      rw [hl] at h
      injection h with htx
      subst htx
      refine ⟨?_, ?_, ?_⟩
      · with_reducible rfl
      · with_reducible rfl
      · exact h3
    | none =>
      rw [hl] at h
      injection h with htx
      subst htx
      refine ⟨?_, ?_, ?_⟩
      · with_reducible rfl
      · with_reducible rfl
      · exact h3

/-- Witness for C1 on the spec's two-record scenario (nonempty predecessor case). -/
theorem c1_hash_rule_witness :
    (scTx2.hash =
      match scLog1.last with
      | some prev =>
          sha256 (utf8 (Transaction.partial_string 2 scenarioTs2 0 1 (rstr "Test2")) ++
            utf8 prev.hash_str)
      | none => sha256 (utf8 (Transaction.partial_string 2 scenarioTs2 0 1 (rstr "Test2")))) ∧
    scTx2.hash_str = Transaction.hash_string scTx2.hash ∧
    (((((Transaction.build.with_id 2).with_timestamp scenarioTs2).with_group_id
          0).with_process_id 1).with_text (rstr "Test2")).try_finish_with_log scLog1 =
      .ok scTx2 :=
  c1_hash_rule scLog1 2 scenarioTs2 0 1 (rstr "Test2") scTx2 (by decide)

/-- C7: building a record with id `prev.next_id()` through the builder's
`try_finish_with_log` against a log whose last entry is `prev` yields a
record that verifies against `prev`: `verify(curr, prev) = Ok`. -/
theorem c7_chain_sound (log : FullTransactionLog) (prev curr : Transaction) (ts : TTime)
    (gid pid : Nat) (text : List Char) (hlast : log.last = some prev)
    (hbuild :
      (((((Transaction.build.with_id prev.next_id).with_timestamp ts).with_group_id
            gid).with_process_id pid).with_text text).try_finish_with_log log = .ok curr) :
    Transaction.verify curr prev = .ok () := by
  rw [try_finish_builder] at hbuild
  unfold Transaction.with_log at hbuild
  cases hc : Transaction.check_input prev.next_id gid pid text with
  | error e => rw [hc] at hbuild; exact absurd hbuild (by simp)
  | ok u =>
    rw [hc, hlast] at hbuild
    have htx := hbuild
    injection htx with htx
    subst htx
    unfold Transaction.verify
    simp [Transaction.to_data_string]

/-- Witness for C7 on the spec's two-record scenario. -/
theorem c7_chain_sound_witness : Transaction.verify scTx2 scTx1 = .ok () :=
  c7_chain_sound scLog1 scTx1 scTx2 scenarioTs2 0 1 (rstr "Test2") (by decide) (by decide)

/-! ## Lemmas about the textual codec -/

lemma char_toNat_ofNat {n : Nat} (h : n < 55296) : (Char.ofNat n).toNat = n := by
  unfold Char.ofNat
  split
  · rfl
  · rename_i hv
    exact absurd (Or.inl h) hv

lemma isDigit_digitChar {d : Nat} (h : d < 10) : isDigit (Char.ofNat (48 + d)) = true := by
  have ht : (Char.ofNat (48 + d)).toNat = 48 + d := char_toNat_ofNat (by omega)
  simp [isDigit, ht]
  omega

lemma dval_digitChar {d : Nat} (h : d < 10) : dval (Char.ofNat (48 + d)) = d := by
  have ht : (Char.ofNat (48 + d)).toNat = 48 + d := char_toNat_ofNat (by omega)
  simp [dval, ht]

lemma isDigit_toNat {c : Char} (h : isDigit c = true) : 48 ≤ c.toNat ∧ c.toNat ≤ 57 := by
  simpa [isDigit] using h

lemma digit_ne_semi {c : Char} (h : isDigit c = true) : c ≠ ';' := by
  intro he
  subst he
  simp [isDigit] at h

lemma digit_ne_plus {c : Char} (h : isDigit c = true) : c ≠ '+' := by
  intro he
  subst he
  simp [isDigit] at h

lemma digitsValAux_append (xs ys : List Char) (acc : Nat) :
    digitsValAux acc (xs ++ ys) = (digitsValAux acc xs).bind (fun v => digitsValAux v ys) := by
  induction xs generalizing acc with
  | nil => simp [digitsValAux]
  | cons c r ih =>
    by_cases hc : isDigit c = true
    · simp [digitsValAux, hc, ih]
    · simp [digitsValAux, hc]

lemma decAux_digits : ∀ fuel n, ∀ c ∈ decAux fuel n, isDigit c = true := by
  intro fuel
  induction fuel with
  | zero => intro n c hc; simp [decAux] at hc
  | succ fuel ih =>
    intro n c hc
    unfold decAux at hc
    by_cases hn : n < 10
    · simp [hn] at hc
      subst hc
      exact isDigit_digitChar hn
    · simp [hn] at hc
      rcases hc with hc | hc
      · exact ih _ _ hc
      · subst hc
        exact isDigit_digitChar (Nat.mod_lt _ (by omega))

lemma decAux_ne_nil (fuel n : Nat) (h : 0 < fuel) : decAux fuel n ≠ [] := by
  cases fuel with
  | zero => omega
  | succ fuel =>
    unfold decAux
    by_cases hn : n < 10 <;> simp [hn]

lemma decAux_val : ∀ fuel n acc, n < fuel →
    digitsValAux acc (decAux fuel n) = some (acc * 10 ^ (decAux fuel n).length + n) := by
  intro fuel
  induction fuel with
  | zero => omega
  | succ fuel ih =>
    intro n acc hn
    unfold decAux
    by_cases h10 : n < 10
    · simp [h10, digitsValAux, isDigit_digitChar h10, dval_digitChar h10]
      omega
    · simp only [h10, if_false]
      rw [digitsValAux_append]
      have hdiv : n / 10 < fuel := by
        have := Nat.div_lt_self (by omega : 0 < n) (by omega : 1 < 10)
        omega
      rw [ih (n / 10) acc hdiv]
      have hm : n % 10 < 10 := Nat.mod_lt _ (by omega)
      simp [digitsValAux, isDigit_digitChar hm, dval_digitChar hm]
      calc 10 * (acc * 10 ^ (decAux fuel (n / 10)).length + n / 10) + n % 10
          = acc * (10 ^ (decAux fuel (n / 10)).length * 10) + (10 * (n / 10) + n % 10) := by
            ring
        _ = acc * (10 ^ (decAux fuel (n / 10)).length * 10) + n := by rw [Nat.div_add_mod]
        _ = acc * 10 ^ ((decAux fuel (n / 10)).length + 1) + n := by rw [pow_succ]

lemma natDec_val (n : Nat) : digitsValAux 0 (natDec n) = some n := by
  have := decAux_val (n + 1) n 0 (by omega)
  simpa [natDec] using this

lemma natDec_digits (n : Nat) : ∀ c ∈ natDec n, isDigit c = true :=
  fun c hc => decAux_digits (n + 1) n c hc

lemma natDec_ne_nil (n : Nat) : natDec n ≠ [] := decAux_ne_nil (n + 1) n (by omega)

lemma zeros_val : ∀ (k : Nat) (s : List Char),
    digitsValAux 0 (List.replicate k '0' ++ s) = digitsValAux 0 s := by
  intro k
  induction k with
  | zero => simp
  | succ k ih =>
    intro s
    have h0 : isDigit '0' = true := by decide
    simp [List.replicate_succ, digitsValAux, h0, dval]
    exact ih s

lemma padZeros_digits (w : Nat) (s : List Char) (h : ∀ c ∈ s, isDigit c = true) :
    ∀ c ∈ padZeros w s, isDigit c = true := by
  intro c hc
  rcases List.mem_append.mp hc with hc | hc
  · have := List.eq_of_mem_replicate hc
    subst this
    decide
  · exact h c hc

lemma rustParseNat_pad (w bound n : Nat) (hb : n ≤ bound) :
    rustParseNat bound (padZeros w (natDec n)) = some n := by
  have hdigits : ∀ c ∈ padZeros w (natDec n), isDigit c = true :=
    padZeros_digits w (natDec n) (natDec_digits n)
  have hval : digitsValAux 0 (padZeros w (natDec n)) = some n := by
    unfold padZeros
    rw [zeros_val, natDec_val]
  have hne : padZeros w (natDec n) ≠ [] := by
    unfold padZeros
    intro h
    rcases List.append_eq_nil.mp h with ⟨_, h2⟩
    exact natDec_ne_nil n h2
  unfold rustParseNat
  cases hs : padZeros w (natDec n) with
  | nil => exact absurd hs hne
  | cons c r =>
    have hcd : isDigit c = true := hdigits c (hs ▸ List.mem_cons_self c r)
    have hplus : c ≠ '+' := digit_ne_plus hcd
    rw [hs] at hval
    simp only [stripPlus, hplus, if_false]
    simp [hval, hb]

lemma decAux_small (fuel n : Nat) (hn : n < 10) (hf : 0 < fuel) :
    decAux fuel n = [Char.ofNat (48 + n)] := by
  cases fuel with
  | zero => omega
  | succ fuel => simp [decAux, hn]

lemma natDec_lt10 {x : Nat} (h : x < 10) : natDec x = [Char.ofNat (48 + x)] :=
  decAux_small (x + 1) x h (by omega)

lemma natDec_lt100 {x : Nat} (h10 : 10 ≤ x) (h : x < 100) :
    natDec x = [Char.ofNat (48 + x / 10), Char.ofNat (48 + x % 10)] := by
  unfold natDec decAux
  rw [if_neg (by omega)]
  rw [decAux_small x (x / 10) (by omega) (by omega)]
  rfl

lemma fmt02_of_lt100 {x : Nat} (h : x < 100) :
    fmt02 x = [Char.ofNat (48 + x / 10), Char.ofNat (48 + x % 10)] := by
  by_cases h10 : x < 10
  · rw [fmt02, natDec_lt10 h10]
    have hdiv : x / 10 = 0 := Nat.div_eq_of_lt h10
    have hmod : x % 10 = x := Nat.mod_eq_of_lt h10
    rw [hdiv, hmod]
    rfl
  · rw [fmt02, natDec_lt100 (by omega) h]
    simp [padZeros]

lemma daysInMonth_le_31 (y m : Nat) : daysInMonth y m ≤ 31 := by
  unfold daysInMonth
  split_ifs <;> simp

lemma digit_not_ws {c : Char} (h : isDigit c = true) : rustIsWhitespace c = false := by
  unfold isDigit at h
  simp only [Bool.and_eq_true, decide_eq_true_eq] at h
  unfold rustIsWhitespace
  simp
  omega

lemma scanNum2_digits {c1 c2 : Char} (rest : List Char) (h1 : isDigit c1 = true)
    (h2 : isDigit c2 = true) :
    scanNum2 (c1 :: c2 :: rest) = some (10 * dval c1 + dval c2, rest) := by
  unfold scanNum2
  rw [List.dropWhile_cons_of_neg (by simp [digit_not_ws h1])]
  simp [h1, h2]

lemma scanLit_eq (c : Char) (rest : List Char) : scanLit c (c :: rest) = some rest := by
  unfold scanLit
  simp

lemma parseTs_fmtTs (t : TTime) (hv : t.calValid = true) (hy1 : 1969 ≤ t.year)
    (hy2 : t.year ≤ 2068) : parseTs (fmtTs t) = some t := by
  obtain ⟨Y, Mo, D, H, Mi, S⟩ := t
  simp only [TTime.calValid, Bool.and_eq_true, decide_eq_true_eq] at hv
  obtain ⟨⟨⟨⟨⟨⟨hm1, hm2⟩, hd1⟩, hd2⟩, hh⟩, hmi⟩, hs⟩ := hv
  simp only at hy1 hy2
  have hD : D < 100 := by have := daysInMonth_le_31 Y Mo; omega
  have hMo : Mo < 100 := by omega
  have hY : Y % 100 < 100 := Nat.mod_lt _ (by omega)
  have hH : H < 100 := by omega
  have hMi : Mi < 100 := by omega
  have hS : S < 100 := by omega
  rw [fmtTs]
  simp only
  rw [fmt02_of_lt100 hD, fmt02_of_lt100 hMo, fmt02_of_lt100 hY, fmt02_of_lt100 hH,
    fmt02_of_lt100 hMi, fmt02_of_lt100 hS]
  simp only [List.cons_append, List.nil_append]
  have hdig : ∀ x : Nat, x < 10 → isDigit (Char.ofNat (48 + x)) = true :=
    fun x hx => isDigit_digitChar hx
  have c1 : isDigit (Char.ofNat (48 + D / 10)) = true := hdig _ (by omega)
  have c2 : isDigit (Char.ofNat (48 + D % 10)) = true := hdig _ (by omega)
  have c3 : isDigit (Char.ofNat (48 + Mo / 10)) = true := hdig _ (by omega)
  have c4 : isDigit (Char.ofNat (48 + Mo % 10)) = true := hdig _ (by omega)
  have c5 : isDigit (Char.ofNat (48 + Y % 100 / 10)) = true := hdig _ (by omega)
  have c6 : isDigit (Char.ofNat (48 + Y % 100 % 10)) = true := hdig _ (by omega)
  have c7 : isDigit (Char.ofNat (48 + H / 10)) = true := hdig _ (by omega)
  have c8 : isDigit (Char.ofNat (48 + H % 10)) = true := hdig _ (by omega)
  have c9 : isDigit (Char.ofNat (48 + Mi / 10)) = true := hdig _ (by omega)
  have c10 : isDigit (Char.ofNat (48 + Mi % 10)) = true := hdig _ (by omega)
  have c11 : isDigit (Char.ofNat (48 + S / 10)) = true := hdig _ (by omega)
  have c12 : isDigit (Char.ofNat (48 + S % 10)) = true := hdig _ (by omega)
  have hval : ∀ x : Nat, x < 100 →
      10 * dval (Char.ofNat (48 + x / 10)) + dval (Char.ofNat (48 + x % 10)) = x := by
    intro x hx
    rw [dval_digitChar (by omega), dval_digitChar (by omega)]
    omega
  rw [parseTs, scanNum2_digits _ c1 c2, tsDay, scanNum2_digits _ c3 c4, tsMonth,
    scanNum2_digits _ c5 c6, tsYear, scanLit_eq, tsDash, scanNum2_digits _ c7 c8, tsHour,
    scanLit_eq, tsC1, scanNum2_digits _ c9 c10, tsMin, scanLit_eq, tsC2,
    scanNum2_digits _ c11 c12, tsSec, tsEnd]
  simp only [hval D hD, hval Mo hMo, hval (Y % 100) hY, hval H hH, hval Mi hMi, hval S hS]
  unfold tsMake
  have hyear : (if Y % 100 ≤ 68 then 2000 + Y % 100 else 1900 + Y % 100) = Y := by
    rcases Nat.lt_or_ge Y 2000 with hy | hy
    · have he : Y % 100 = Y - 1900 := by omega
      rw [he, if_neg (by omega)]
      omega
    · have he : Y % 100 = Y - 2000 := by omega
      rw [he, if_pos (by omega)]
      omega
  rw [hyear]
  rw [if_pos]
  simp only [TTime.calValid, Bool.and_eq_true, decide_eq_true_eq]
  exact ⟨⟨⟨⟨⟨⟨hm1, hm2⟩, hd1⟩, hd2⟩, hh⟩, hmi⟩, hs⟩

lemma splitSemi_no_semi (a : List Char) (h : ';' ∉ a) : splitSemi a = [a] := by
  induction a with
  | nil => rfl
  | cons c r ih =>
    have hc : c ≠ ';' := fun he => h (he ▸ List.mem_cons_self c r)
    have hr : ';' ∉ r := fun hm => h (List.mem_cons_of_mem c hm)
    rw [splitSemi, if_neg hc, ih hr]

lemma splitSemi_append (a b : List Char) (h : ';' ∉ a) :
    splitSemi (a ++ ';' :: b) = a :: splitSemi b := by
  induction a with
  | nil =>
    simp only [List.nil_append]
    rw [splitSemi, if_pos rfl]
  | cons c r ih =>
    have hc : c ≠ ';' := fun he => h (he ▸ List.mem_cons_self c r)
    have hr : ';' ∉ r := fun hm => h (List.mem_cons_of_mem c hm)
    simp only [List.cons_append]
    rw [splitSemi, if_neg hc, ih hr]

lemma hexDigitUp_toNat {d : Nat} (h : d < 16) :
    (hexDigitUp d).toNat = if d < 10 then 48 + d else 55 + d := by
  unfold hexDigitUp
  by_cases h10 : d < 10
  · rw [if_pos h10, if_pos h10, char_toNat_ofNat (by omega)]
  · rw [if_neg h10, if_neg h10, char_toNat_ofNat (by omega)]

lemma hexVal_hexDigitUp {d : Nat} (h : d < 16) : hexVal (hexDigitUp d) = some d := by
  have ht := hexDigitUp_toNat h
  unfold hexVal
  rw [ht]
  by_cases h10 : d < 10
  · rw [if_pos h10, if_pos (by simp; omega)]
    have he : 48 + d - 48 = d := by omega
    rw [he]
  · rw [if_neg h10, if_neg (by simp; omega), if_pos (by simp; omega)]
    have he : 55 + d - 55 = d := by omega
    rw [he]

lemma hexDigitUp_ne_plus {d : Nat} (h : d < 16) : hexDigitUp d ≠ '+' := by
  intro he
  have ht := hexDigitUp_toNat h
  rw [he] at ht
  have : ('+').toNat = 43 := by decide
  rw [this] at ht
  split_ifs at ht <;> omega

lemma hexDigitUp_ne_semi {d : Nat} (h : d < 16) : hexDigitUp d ≠ ';' := by
  intro he
  have ht := hexDigitUp_toNat h
  rw [he] at ht
  have : (';').toNat = 59 := by decide
  rw [this] at ht
  split_ifs at ht <;> omega

lemma hexDigitUp_not_ws {d : Nat} (h : d < 16) : rustIsWhitespace (hexDigitUp d) = false := by
  have ht := hexDigitUp_toNat h
  unfold rustIsWhitespace
  split_ifs at ht <;> rw [ht] <;> simp <;> omega

lemma radix16pair_hex {b : Nat} (h : b < 256) :
    radix16pair (hexDigitUp (b / 16)) (hexDigitUp (b % 16)) = some b := by
  unfold radix16pair
  rw [if_neg (hexDigitUp_ne_plus (by omega))]
  rw [hexVal_hexDigitUp (by omega), hexVal_hexDigitUp (by omega)]
  simp
  omega

lemma parseHexBytes_hash_string (bs : List Nat) (h : ∀ b ∈ bs, b < 256) :
    parseHexBytes (Transaction.hash_string bs) = .ok bs := by
  induction bs with
  | nil => rfl
  | cons b r ih =>
    have hb : b < 256 := h b (List.mem_cons_self b r)
    have hr : ∀ x ∈ r, x < 256 := fun x hx => h x (List.mem_cons_of_mem b hx)
    show parseHexBytes (hexDigitUp (b / 16) :: hexDigitUp (b % 16) ::
      Transaction.hash_string r) = .ok (b :: r)
    rw [parseHexBytes, radix16pair_hex hb, ih hr]
    rfl

lemma mem_hash_string {bs : List Nat} (h : ∀ b ∈ bs, b < 256) :
    ∀ c ∈ Transaction.hash_string bs, ∃ d, d < 16 ∧ c = hexDigitUp d := by
  intro c hc
  unfold Transaction.hash_string at hc
  rcases List.mem_flatMap.mp hc with ⟨b, hb, hcb⟩
  have hb256 := h b hb
  simp only [List.mem_cons, List.mem_singleton] at hcb
  rcases hcb with hcb | hcb | hcb
  · exact ⟨b / 16, by omega, hcb⟩
  · exact ⟨b % 16, by omega, hcb⟩
  · exact absurd hcb (by simp)

lemma trim_of_no_ws (s : List Char) (h : ∀ c ∈ s, rustIsWhitespace c = false) :
    rustTrim s = s := by
  have h1 : s.dropWhile rustIsWhitespace = s := by
    cases s with
    | nil => rfl
    | cons c r => rw [List.dropWhile_cons_of_neg (by simp [h c (List.mem_cons_self c r)])]
  unfold rustTrim
  rw [h1]
  have h2 : s.reverse.dropWhile rustIsWhitespace = s.reverse := by
    cases hr : s.reverse with
    | nil => rfl
    | cons c r =>
      have hc : c ∈ s := by
        have : c ∈ s.reverse := hr ▸ List.mem_cons_self c r
        exact List.mem_reverse.mp this
      rw [List.dropWhile_cons_of_neg (by simp [h c hc])]
  rw [h2, List.reverse_reverse]

lemma mem_fmt02_digit {x : Nat} {c : Char} (h : c ∈ fmt02 x) : isDigit c = true :=
  padZeros_digits 2 (natDec x) (natDec_digits x) c h

lemma mem_fmt08_digit {x : Nat} {c : Char} (h : c ∈ fmt08 x) : isDigit c = true :=
  padZeros_digits 8 (natDec x) (natDec_digits x) c h

lemma fmtTs_chars {t : TTime} {c : Char} (h : c ∈ fmtTs t) :
    isDigit c = true ∨ c = '-' ∨ c = ':' := by
  unfold fmtTs at h
  simp only [List.mem_append, List.mem_cons] at h
  rcases h with ((((h | h) | h) | (h | h)) | (h | h)) | (h | h)
  · exact Or.inl (mem_fmt02_digit h)
  · exact Or.inl (mem_fmt02_digit h)
  · exact Or.inl (mem_fmt02_digit h)
  · exact Or.inr (Or.inl h)
  · exact Or.inl (mem_fmt02_digit h)
  · exact Or.inr (Or.inr h)
  · exact Or.inl (mem_fmt02_digit h)
  · exact Or.inr (Or.inr h)
  · exact Or.inl (mem_fmt02_digit h)

lemma fmtTs_no_semi (t : TTime) : ';' ∉ fmtTs t := by
  intro h
  rcases fmtTs_chars h with h | h | h
  · exact digit_ne_semi h rfl
  · exact absurd h.symm (by decide)
  · exact absurd h.symm (by decide)

lemma fmt08_no_semi (x : Nat) : ';' ∉ fmt08 x := fun h => digit_ne_semi (mem_fmt08_digit h) rfl

lemma fmt02_no_semi (x : Nat) : ';' ∉ fmt02 x := fun h => digit_ne_semi (mem_fmt02_digit h) rfl

lemma hash_string_no_semi {bs : List Nat} (h : ∀ b ∈ bs, b < 256) :
    ';' ∉ Transaction.hash_string bs := by
  intro hc
  rcases mem_hash_string h ';' hc with ⟨d, hd, he⟩
  exact hexDigitUp_ne_semi hd he.symm

lemma invalid_chars_not_mem {x : List Char}
    (h : Transaction.INVALID_CHAR.any (fun c => x.contains c) = false) : ';' ∉ x := by
  simp only [Transaction.INVALID_CHAR, List.any_cons, List.any_nil, Bool.or_eq_false_iff] at h
  intro hm
  have hc : x.elem ';' = false := h.2.2.2.1
  have he : x.elem ';' = true := List.elem_iff.mpr hm
  rw [hc] at he
  exact Bool.noConfusion he

lemma check_input_passes (id gid pid : Nat) (text : List Char)
    (h1 : Transaction.MIN_ID ≤ id) (h2 : id ≤ Transaction.MAX_ID)
    (h3 : gid ≤ Transaction.MAX_GID) (h4 : pid ≤ Transaction.MAX_PID)
    (h5 : Transaction.INVALID_CHAR.any (fun c => text.contains c) = false) :
    Transaction.check_input id gid pid text = .ok () := by
  have g1 : 1 ≤ id := h1
  have g2 : id ≤ 99999999 := h2
  have g3 : gid ≤ 99 := h3
  have g4 : pid ≤ 99 := h4
  unfold Transaction.check_input
  rw [if_neg (by simp [Transaction.MIN_ID, Transaction.MAX_ID]; omega),
    if_neg (by simp [Transaction.MAX_GID]; omega),
    if_neg (by simp [Transaction.MAX_PID]; omega),
    if_neg (by rw [h5]; simp)]

/-- The split of a rendered transaction line into its six fields. -/
lemma splitSemi_to_string (id : Nat) (ts : TTime) (g p : Nat) (x : List Char) (hs : List Nat)
    (hx : ';' ∉ x) (hb : ∀ b ∈ hs, b < 256) :
    splitSemi (Transaction.partial_string id ts g p x ++ Transaction.hash_string hs) =
      [fmt08 id, fmtTs ts, fmt02 g, fmt02 p, x, Transaction.hash_string hs] := by
  unfold Transaction.partial_string
  have e1 : (fmt08 id ++ ';' :: fmtTs ts ++ ';' :: fmt02 g ++ ';' :: fmt02 p ++ ';' :: x ++ [';']) ++
      Transaction.hash_string hs =
      fmt08 id ++ ';' :: (fmtTs ts ++ ';' :: (fmt02 g ++ ';' :: (fmt02 p ++ ';' ::
        (x ++ ';' :: Transaction.hash_string hs)))) := by
    simp [List.append_assoc]
  rw [e1]
  rw [splitSemi_append _ _ (fmt08_no_semi id), splitSemi_append _ _ (fmtTs_no_semi ts),
    splitSemi_append _ _ (fmt02_no_semi g), splitSemi_append _ _ (fmt02_no_semi p),
    splitSemi_append _ _ hx, splitSemi_no_semi _ (hash_string_no_semi hb)]

/-- Round trip for valid records: fields within bounds, delimiter-free text,
calendar-valid timestamp in the `%y` window, byte-valued hash entries and the
canonical hex hash string give `parse (to_string t) = .ok t`. -/
lemma roundtrip_of_valid (t : Transaction)
    (h1 : Transaction.MIN_ID ≤ t.id) (h2 : t.id ≤ Transaction.MAX_ID)
    (h3 : t.group_id ≤ Transaction.MAX_GID) (h4 : t.process_id ≤ Transaction.MAX_PID)
    (h5 : Transaction.INVALID_CHAR.any (fun c => t.text.contains c) = false)
    (h6 : t.timestamp.calValid = true) (h7 : 1969 ≤ t.timestamp.year)
    (h8 : t.timestamp.year ≤ 2068) (h9 : ∀ b ∈ t.hash, b < 256)
    (h10 : t.hash_str = Transaction.hash_string t.hash) :
    Transaction.parse (Transaction.to_string t) = .ok t := by
  obtain ⟨id, ts, g, p, x, hs, hstr⟩ := t
  simp only at h1 h2 h3 h4 h5 h6 h7 h8 h9 h10
  subst h10
  have hsplit := splitSemi_to_string id ts g p x hs (invalid_chars_not_mem h5) h9
  unfold Transaction.parse
  have hts : Transaction.to_string
      { id := id, timestamp := ts, group_id := g, process_id := p, text := x, hash := hs,
        hash_str := Transaction.hash_string hs } =
      Transaction.partial_string id ts g p x ++ Transaction.hash_string hs := rfl
  rw [hts, hsplit, Transaction.parse_fields]
  have hid : rustParseNat 4294967295 (fmt08 id) = some id := by
    unfold fmt08 at *
    exact rustParseNat_pad 8 4294967295 id (by
      have : id ≤ 99999999 := h2
      omega)
  have hgid : rustParseNat 255 (fmt02 g) = some g := by
    unfold fmt02 at *
    exact rustParseNat_pad 2 255 g (by
      have : g ≤ 99 := h3
      omega)
  have hpid : rustParseNat 255 (fmt02 p) = some p := by
    unfold fmt02 at *
    exact rustParseNat_pad 2 255 p (by
      have : p ≤ 99 := h4
      omega)
  have htrim : rustTrim (Transaction.hash_string hs) = Transaction.hash_string hs := by
    refine trim_of_no_ws _ (fun c hc => ?_)
    rcases mem_hash_string h9 c hc with ⟨d, hd, he⟩
    exact he ▸ hexDigitUp_not_ws hd
  rw [hid, Transaction.parse_after_id, parseTs_fmtTs ts h6 h7 h8, Transaction.parse_after_ts,
    hgid, Transaction.parse_after_gid, hpid, Transaction.parse_after_pid,
    Transaction.parse_after_text, htrim, parseHexBytes_hash_string hs h9,
    Transaction.parse_after_hash]
  unfold Transaction.with_hash
  rw [check_input_passes id g p x h1 h2 h3 h4 h5]
  rfl

/-- C3 (amended): for every valid record — fields within bounds, text free
of the forbidden delimiter characters, a calendar-valid timestamp whose year
lies within the two-digit `%y` window `1969-2068`, byte-valued hash entries,
and a hash string that is the canonical uppercase-hex rendering of the hash
bytes (an invariant of every record the program constructs) — parsing the
string rendering yields the record back, field for field. -/
theorem c3_roundtrip (t : Transaction)
    (h1 : Transaction.MIN_ID ≤ t.id) (h2 : t.id ≤ Transaction.MAX_ID)
    (h3 : t.group_id ≤ Transaction.MAX_GID) (h4 : t.process_id ≤ Transaction.MAX_PID)
    (h5 : Transaction.INVALID_CHAR.any (fun c => t.text.contains c) = false)
    (h6 : t.timestamp.calValid = true) (h7 : 1969 ≤ t.timestamp.year)
    (h8 : t.timestamp.year ≤ 2068) (h9 : ∀ b ∈ t.hash, b < 256)
    (h10 : t.hash_str = Transaction.hash_string t.hash) :
    Transaction.parse (Transaction.to_string t) = .ok t :=
  roundtrip_of_valid t h1 h2 h3 h4 h5 h6 h7 h8 h9 h10

/-- The record the program builds on an empty ledger for a timestamp in the
year 1850 (any calendar-valid `DateTime` a caller passes is accepted). -/
def cex3Ts : TTime := { year := 1850, month := 1, day := 1, hour := 0, minute := 0, second := 0 }

def cex3Tx : Transaction :=
  { id := 1, timestamp := cex3Ts, group_id := 0, process_id := 1, text := rstr "a",
    hash := sha256 (utf8 (Transaction.partial_string 1 cex3Ts 0 1 (rstr "a"))),
    hash_str := Transaction.hash_string
      (sha256 (utf8 (Transaction.partial_string 1 cex3Ts 0 1 (rstr "a")))) }

/-- C3 (counterexample): `cex3Tx` is a record the program itself constructs
(`with_log` on the empty ledger) whose fields are all within bounds and whose
text is delimiter-free, yet `parse(to_string(cex3Tx))` does not return
`cex3Tx`: the `%y` two-digit year renders 1850 as `"50"`, which re-parses as
2050, so the round trip is not the identity. -/
theorem c3_counterexample :
    Transaction.with_log FullTransactionLog.new 1 cex3Ts 0 1 (rstr "a") = .ok cex3Tx ∧
    (Transaction.parse (Transaction.to_string cex3Tx)).map (fun t => t.timestamp.year) =
      .ok 2050 ∧
    cex3Tx.timestamp.year = 1850 ∧
    Transaction.parse (Transaction.to_string cex3Tx) ≠ .ok cex3Tx := by
  refine ⟨by decide, by decide, by decide, by decide⟩

/-- A line whose hash field is lowercase hex. -/
def cex6Line : List Char := rstr "00000001;041017-10:00:00;00;01;Testü;ff"

/-- Witness for the amended C3 on the first scenario record. -/
theorem c3_roundtrip_witness : Transaction.parse (Transaction.to_string scTx1) = .ok scTx1 :=
  c3_roundtrip scTx1 (by decide) (by decide) (by decide) (by decide) (by decide) (by decide)
    (by decide) (by decide) (by decide) (by decide)

/-! ## The grammar of a parseable line (for C6) -/

/-- A field Rust's unsigned `from_str` accepts: an optional `+`, then at
least one decimal digit. -/
def numText (s : List Char) : Bool :=
  !(stripPlus s).isEmpty && (stripPlus s).all isDigit

/-- The decimal value of such a field. -/
def numValue (s : List Char) : Nat :=
  (stripPlus s).foldl (fun a c => 10 * a + dval c) 0

/-- The hash grammar `u8::from_str_radix` induces on character pairs: each
pair is two hexadecimal digits of either case, or a `+` followed by one. -/
def hexPairsOk : List Char → Bool
  | [] => true
  | [_] => false
  | c1 :: c2 :: r =>
    (if c1 = '+' then (hexVal c2).isSome
     else (hexVal c1).isSome && (hexVal c2).isSome) && hexPairsOk r

def exOk : Except (List Char) Transaction → Bool
  | .ok _ => true
  | .error _ => false

lemma digitsValAux_eq (t : List Char) : ∀ acc : Nat,
    digitsValAux acc t =
      (if t.all isDigit then some (t.foldl (fun a c => 10 * a + dval c) acc) else none) := by
  induction t with
  | nil => intro acc; simp [digitsValAux]
  | cons c r ih =>
    intro acc
    by_cases hc : isDigit c = true
    · simp [digitsValAux, hc, ih]
    · simp [digitsValAux, hc]

lemma rustParseNat_eq (bound : Nat) (s : List Char) :
    rustParseNat bound s =
      (if numText s && decide (numValue s ≤ bound) then some (numValue s) else none) := by
  unfold rustParseNat numText numValue
  cases ht : stripPlus s with
  | nil => simp
  | cons c r =>
    simp only [List.isEmpty_cons, Bool.not_false, Bool.true_and]
    rw [digitsValAux_eq]
    by_cases hall : (c :: r).all isDigit = true
    · rw [if_pos hall, hall]
      simp only [Bool.true_and]
      by_cases hb : (c :: r).foldl (fun a c => 10 * a + dval c) 0 ≤ bound
      · simp [hb]
      · simp [hb]
    · rw [if_neg hall]
      simp only [Bool.and_eq_true, decide_eq_true_eq] at hall ⊢
      rw [if_neg (by tauto)]

lemma radix16pair_isSome (c1 c2 : Char) :
    (radix16pair c1 c2).isSome =
      (if c1 = '+' then (hexVal c2).isSome else (hexVal c1).isSome && (hexVal c2).isSome) := by
  unfold radix16pair
  by_cases h : c1 = '+'
  · simp [h]
  · simp only [h, if_neg, if_false]
    cases hexVal c1 <;> cases hexVal c2 <;> simp

lemma parseHexBytes_ok_iff : ∀ s : List Char,
    (∃ bs, parseHexBytes s = .ok bs) ↔ hexPairsOk s = true
  | [] => by simp [parseHexBytes, hexPairsOk]
  | [c] => by simp [parseHexBytes, hexPairsOk]
  | c1 :: c2 :: r => by
    rw [parseHexBytes, hexPairsOk, ← radix16pair_isSome]
    cases hp : radix16pair c1 c2 with
    | none => simp
    | some b =>
      simp only [Option.isSome_some, Bool.true_and]
      rw [← parseHexBytes_ok_iff r]
      cases hr : parseHexBytes r with
      | error e => simp [hr, Except.map]
      | ok bs => simp [hr, Except.map]

lemma check_input_eq_ok_iff (id gid pid : Nat) (text : List Char) :
    Transaction.check_input id gid pid text = .ok () ↔
      (1 ≤ id ∧ id ≤ 99999999 ∧ gid ≤ 99 ∧ pid ≤ 99 ∧
        (Transaction.INVALID_CHAR.any (fun c => text.contains c)) = false) := by
  unfold Transaction.check_input
  unfold Transaction.MIN_ID Transaction.MAX_ID Transaction.MAX_GID Transaction.MAX_PID
  split_ifs with a b c d
  · simp only [Bool.or_eq_true, decide_eq_true_eq] at a
    constructor
    · intro h
      exact absurd h (by simp)
    · rintro ⟨k1, k2, k3, k4, k5⟩
      exfalso
      omega
  · simp only [Bool.or_eq_true, decide_eq_true_eq] at a
    simp only [decide_eq_true_eq] at b
    constructor
    · intro h
      exact absurd h (by simp)
    · rintro ⟨k1, k2, k3, k4, k5⟩
      exfalso
      omega
  · simp only [Bool.or_eq_true, decide_eq_true_eq] at a
    simp only [decide_eq_true_eq] at b c
    constructor
    · intro h
      exact absurd h (by simp)
    · rintro ⟨k1, k2, k3, k4, k5⟩
      exfalso
      omega
  · constructor
    · intro h
      exact absurd h (by simp)
    · rintro ⟨k1, k2, k3, k4, k5⟩
      rw [k5] at d
      exact Bool.noConfusion d
  · simp only [Bool.or_eq_true, decide_eq_true_eq] at a
    simp only [decide_eq_true_eq] at b c
    simp only [Bool.not_eq_true] at d
    constructor
    · intro _
      exact ⟨by omega, by omega, by omega, by omega, d⟩
    · intro _
      rfl

lemma parse_finish_err (r : Except (List Char) Transaction) (y : List Char)
    (rest : List (List Char)) : exOk (Transaction.parse_finish r (y :: rest)) = false := by
  cases r <;> rfl

lemma parse_after_id_nil (o : Option Nat) : exOk (Transaction.parse_after_id o []) = false := by
  cases o <;> rfl

lemma parse_after_ts_nil (id : Nat) (o : Option TTime) :
    exOk (Transaction.parse_after_ts id o []) = false := by
  cases o <;> rfl

lemma parse_after_gid_nil (id : Nat) (ts : TTime) (o : Option Nat) :
    exOk (Transaction.parse_after_gid id ts o []) = false := by
  cases o <;> rfl

lemma parse_after_pid_nil (id : Nat) (ts : TTime) (g : Nat) (o : Option Nat) :
    exOk (Transaction.parse_after_pid id ts g o []) = false := by
  cases o <;> rfl

/-- Fields of a parseable line (six pieces). -/
def wellFormedFields : List (List Char) → Bool
  | [i, tsS, gS, pS, xS, hS] =>
    numText i && decide (1 ≤ numValue i) && decide (numValue i ≤ 99999999) &&
      (parseTs tsS).isSome &&
      numText gS && decide (numValue gS ≤ 99) &&
      numText pS && decide (numValue pS ≤ 99) &&
      !(Transaction.INVALID_CHAR.any (fun c => xS.contains c)) &&
      hexPairsOk (rustTrim hS)
  | _ => false

lemma parse_fields_extra (i t g p x h y : List Char) (rest : List (List Char)) :
    exOk (Transaction.parse_fields (i :: t :: g :: p :: x :: h :: y :: rest)) = false := by
  rw [Transaction.parse_fields]
  cases rustParseNat 4294967295 i with
  | none => rfl
  | some id =>
    simp only [Transaction.parse_after_id]
    cases parseTs t with
    | none => rfl
    | some ts =>
      simp only [Transaction.parse_after_ts]
      cases rustParseNat 255 g with
      | none => rfl
      | some gid =>
        simp only [Transaction.parse_after_gid]
        cases rustParseNat 255 p with
        | none => rfl
        | some pid =>
          simp only [Transaction.parse_after_pid, Transaction.parse_after_text]
          cases parseHexBytes (rustTrim h) with
          | error e => rfl
          | ok bs =>
            simp only [Transaction.parse_after_hash]
            exact parse_finish_err _ _ _

lemma parse_fields_six (i t g p x h : List Char) :
    exOk (Transaction.parse_fields [i, t, g, p, x, h]) = true ↔
      (numText i = true ∧ 1 ≤ numValue i ∧ numValue i ≤ 99999999 ∧
        (parseTs t).isSome = true ∧
        numText g = true ∧ numValue g ≤ 99 ∧
        numText p = true ∧ numValue p ≤ 99 ∧
        (Transaction.INVALID_CHAR.any (fun c => x.contains c)) = false ∧
        hexPairsOk (rustTrim h) = true) := by
  rw [Transaction.parse_fields, rustParseNat_eq]
  by_cases h1 : (numText i && decide (numValue i ≤ 4294967295)) = true
  · rw [if_pos h1]
    simp only [Bool.and_eq_true, decide_eq_true_eq] at h1
    simp only [Transaction.parse_after_id]
    cases hts : parseTs t with
    | none =>
      simp only [Transaction.parse_after_ts]
      constructor
      · intro hf
        exact absurd hf (by simp [exOk])
      · rintro ⟨_, _, _, k4, _⟩
        exact absurd k4 (by simp)
    | some ts =>
      simp only [Transaction.parse_after_ts]
      rw [rustParseNat_eq]
      by_cases h2 : (numText g && decide (numValue g ≤ 255)) = true
      · rw [if_pos h2]
        simp only [Bool.and_eq_true, decide_eq_true_eq] at h2
        simp only [Transaction.parse_after_gid]
        rw [rustParseNat_eq]
        by_cases h3 : (numText p && decide (numValue p ≤ 255)) = true
        · rw [if_pos h3]
          simp only [Bool.and_eq_true, decide_eq_true_eq] at h3
          simp only [Transaction.parse_after_pid, Transaction.parse_after_text]
          cases hhex : parseHexBytes (rustTrim h) with
          | error e =>
            simp only [Transaction.parse_after_hash]
            constructor
            · intro hf
              exact absurd hf (by simp [exOk])
            · rintro ⟨_, _, _, _, _, _, _, _, _, k10⟩
              obtain ⟨bs, hbs⟩ := (parseHexBytes_ok_iff (rustTrim h)).mpr k10
              rw [hhex] at hbs
              exact Except.noConfusion hbs
          | ok bs =>
            simp only [Transaction.parse_after_hash]
            unfold Transaction.with_hash
            cases hci : Transaction.check_input (numValue i) (numValue g) (numValue p) x with
            | error e =>
              simp only [Transaction.parse_finish]
              constructor
              · intro hf
                exact absurd hf (by simp [exOk])
              · rintro ⟨k1, k2, k3, k4, k5, k6, k7, k8, k9, k10⟩
                have : Transaction.check_input (numValue i) (numValue g) (numValue p) x =
                    .ok () := (check_input_eq_ok_iff _ _ _ _).mpr ⟨k2, k3, k6, k8, k9⟩
                rw [hci] at this
                exact Except.noConfusion this
            | ok u =>
              cases u
              have hconj := (check_input_eq_ok_iff (numValue i) (numValue g) (numValue p)
                x).mp hci
              simp only [Transaction.parse_finish, exOk]
              constructor
              · intro _
                refine ⟨h1.1, hconj.1, hconj.2.1, rfl, h2.1, hconj.2.2.1,
                  h3.1, hconj.2.2.2.1, hconj.2.2.2.2, ?_⟩
                have := (parseHexBytes_ok_iff (rustTrim h)).mp ⟨bs, hhex⟩
                exact this
              · intro _
                trivial
        · rw [if_neg h3]
          simp only [Bool.and_eq_true, decide_eq_true_eq, not_and_or, not_le] at h3
          simp only [Transaction.parse_after_pid]
          constructor
          · intro hf
            exact absurd hf (by simp [exOk])
          · rintro ⟨_, _, _, _, _, _, k7, k8, _⟩
            rcases h3 with h3 | h3
            · exact (h3 k7).elim
            · omega
      · rw [if_neg h2]
        simp only [Bool.and_eq_true, decide_eq_true_eq, not_and_or, not_le] at h2
        simp only [Transaction.parse_after_gid]
        constructor
        · intro hf
          exact absurd hf (by simp [exOk])
        · rintro ⟨_, _, _, _, k5, k6, _⟩
          rcases h2 with h2 | h2
          · exact (h2 k5).elim
          · omega
  · rw [if_neg h1]
    simp only [Bool.and_eq_true, decide_eq_true_eq, not_and_or, not_le] at h1
    simp only [Transaction.parse_after_id]
    constructor
    · intro hf
      exact absurd hf (by simp [exOk])
    · rintro ⟨k1, k2, k3, _⟩
      rcases h1 with h1 | h1
      · exact (h1 k1).elim
      · omega

lemma next_id_pos (l : FullTransactionLog) : 1 ≤ l.next_id := by
  unfold FullTransactionLog.next_id
  cases l.last with
  | none => exact le_refl 1
  | some t =>
    show 1 ≤ t.next_id
    unfold Transaction.next_id Transaction.MIN_ID
    split_ifs <;> omega

lemma next_id_le (l : FullTransactionLog) : l.next_id ≤ Transaction.MAX_ID := by
  unfold FullTransactionLog.next_id
  cases l.last with
  | none => decide
  | some t =>
    show t.next_id ≤ Transaction.MAX_ID
    unfold Transaction.next_id Transaction.MIN_ID Transaction.MAX_ID
    split_ifs <;> omega

lemma next_id_eq_succ (l : FullTransactionLog) (tx : Transaction) (h : l.last = some tx)
    (hlt : tx.id < Transaction.MAX_ID) : l.next_id = tx.id + 1 := by
  unfold FullTransactionLog.next_id
  rw [h]
  show tx.next_id = tx.id + 1
  unfold Transaction.next_id
  rw [if_neg (by omega)]

lemma btreeInsert_append (l : List Transaction) (tx : Transaction)
    (h : ∀ t ∈ l, t.id < tx.id) : btreeInsert l tx = l ++ [tx] := by
  induction l with
  | nil => rfl
  | cons a r ih =>
    have ha := h a (List.mem_cons_self a r)
    rw [btreeInsert, if_neg (by omega), if_neg (by omega),
      ih (fun t ht => h t (List.mem_cons_of_mem a ht))]
    rfl

lemma with_log_ok (log : FullTransactionLog) (id : Nat) (ts : TTime) (g p : Nat)
    (x : List Char) (h1 : 1 ≤ id) (h2 : id ≤ 99999999) (h3 : g ≤ 99) (h4 : p ≤ 99)
    (h5 : (Transaction.INVALID_CHAR.any (fun c => x.contains c)) = false) :
    ∃ tx, Transaction.with_log log id ts g p x = .ok tx ∧ tx.id = id ∧ tx.timestamp = ts ∧
      tx.group_id = g ∧ tx.process_id = p ∧ tx.text = x := by
  unfold Transaction.with_log
  rw [check_input_passes id g p x h1 h2 h3 h4 h5]
  cases log.last with
  | some prev => exact ⟨_, rfl, rfl, rfl, rfl, rfl, rfl⟩
  | none => exact ⟨_, rfl, rfl, rfl, rfl, rfl, rfl⟩

lemma verify_of_with_log (log : FullTransactionLog) (prev tx : Transaction) (id : Nat)
    (ts : TTime) (g p : Nat) (x : List Char) (hlast : log.last = some prev)
    (hid : id = prev.next_id) (h : Transaction.with_log log id ts g p x = .ok tx) :
    Transaction.verify tx prev = .ok () := by
  subst hid
  unfold Transaction.with_log at h
  cases hc : Transaction.check_input prev.next_id g p x with
  | error e => rw [hc] at h; exact absurd h (by simp)
  | ok u =>
    rw [hc, hlast] at h
    injection h with htx
    subst htx
    unfold Transaction.verify
    simp [Transaction.to_data_string]

/-- The flush loop, specified: from a log whose entries all sit below the
next id, valid drafts are materialized one per draft in FIFO order with
consecutive ids from `log.next_id`, each verifying against its predecessor
(including the old tail), and appended at the end of the log. -/
lemma flushAux_spec (clock : Nat → TTime) :
    ∀ (drafts : List QueuedTransaction) (log : FullTransactionLog) (i : Nat),
    (∀ q ∈ drafts, q.gid ≤ 99 ∧ q.pid ≤ 99 ∧
      (Transaction.INVALID_CHAR.any (fun c => q.text.contains c)) = false) →
    (drafts ≠ [] → ∀ t ∈ log.log, t.id < log.next_id) →
    (log.next_id + drafts.length ≤ Transaction.MAX_ID + 1) →
    ∃ log2 txs, flushAux clock log drafts i = some (log2, txs) ∧
      txs.length = drafts.length ∧
      List.Forall₂ (fun q tx => tx.group_id = q.gid ∧ tx.process_id = q.pid ∧
        tx.text = q.text) drafts txs ∧
      txs.map Transaction.id = List.range' log.next_id drafts.length ∧
      List.Chain' (fun a b => Transaction.verify b a = .ok ()) (log.last.toList ++ txs) ∧
      log2.log = log.log ++ txs := by
  intro drafts
  induction drafts with
  | nil =>
    intro log i _ _ _
    refine ⟨log, [], rfl, rfl, List.Forall₂.nil, rfl, ?_, by simp⟩
    cases log.last <;> simp
  | cons q rest ih =>
    intro log i hvalid hall hno
    have hq := hvalid q (List.mem_cons_self q rest)
    have hmax : Transaction.MAX_ID = 99999999 := rfl
    have hno9 : log.next_id + rest.length ≤ 99999999 := by
      simp only [List.length_cons, hmax] at hno
      omega
    obtain ⟨tx, htx, hid, hts2, hg, hp2, hx⟩ :=
      with_log_ok log log.next_id (clock i) q.gid q.pid q.text (next_id_pos log)
        (by omega) hq.1 hq.2.1 hq.2.2
    have happ : (log.append tx).log = log.log ++ [tx] := by
      unfold FullTransactionLog.append
      rw [btreeInsert_append _ _ (fun t ht => hid ▸ hall (by simp) t ht)]
    have hlast2 : (log.append tx).last = some tx := by
      unfold FullTransactionLog.last
      rw [happ, List.getLast?_concat]
    obtain ⟨log2, txs2, heq, hlen, hfa, hids, hchain, hlog2⟩ :=
      ih (log.append tx) (i + 1) (fun q2 hq2 => hvalid q2 (List.mem_cons_of_mem q hq2))
        (by
          intro hne t ht
          have hr1 : 1 ≤ rest.length := by
            cases rest with
            | nil => exact absurd rfl hne
            | cons a b => simp
          have hnext2 : (log.append tx).next_id = tx.id + 1 :=
            next_id_eq_succ _ tx hlast2 (by omega)
          rw [hnext2, happ] at *
          rcases List.mem_append.mp ht with ht | ht
          · have := hall (by simp) t ht
            omega
          · simp only [List.mem_singleton] at ht
            subst ht
            omega)
        (by
          cases rest with
          | nil =>
            simp only [List.length_nil, Nat.add_zero]
            exact Nat.le_succ_of_le (next_id_le _)
          | cons a b =>
            have hnext2 : (log.append tx).next_id = tx.id + 1 :=
              next_id_eq_succ _ tx hlast2 (by
                simp only [List.length_cons] at hno9
                omega)
            rw [hnext2, hid, hmax]
            simp only [List.length_cons] at hno9 ⊢
            omega)
    refine ⟨log2, tx :: txs2, ?_, ?_, ?_, ?_, ?_, ?_⟩
    · have hstep : flushAux clock log (q :: rest) i =
          (flushAux clock (log.append tx) rest (i + 1)).map (fun pr => (pr.1, tx :: pr.2)) := by
        simp only [flushAux]
        rw [try_finish_builder, htx]
      rw [hstep, heq]
      rfl
    · simp [hlen]
    · exact List.Forall₂.cons ⟨hg, hp2, hx⟩ hfa
    · simp only [List.map_cons, List.length_cons, List.range'_succ, hid, List.cons.injEq,
        true_and]
      cases hrest : rest with
      | nil =>
        have h0 : txs2 = [] := List.length_eq_zero.mp (by rw [hlen, hrest]; rfl)
        subst h0
        rfl
      | cons a b =>
        have hnext2 : (log.append tx).next_id = tx.id + 1 :=
          next_id_eq_succ _ tx hlast2 (by
            rw [hrest] at hno9
            simp only [List.length_cons] at hno9
            omega)
        rw [hids, hnext2, hid, hrest]
    · rw [hlast2] at hchain
      simp only [Option.toList_some, List.singleton_append] at hchain
      cases hl : log.last with
      | none => simpa using hchain
      | some prev =>
        simp only [Option.toList_some, List.singleton_append]
        refine List.chain'_cons.mpr ⟨?_, hchain⟩
        refine verify_of_with_log log prev tx log.next_id (clock i) q.gid q.pid q.text hl
          ?_ htx
        unfold FullTransactionLog.next_id
        rw [hl]
    · rw [hlog2, happ]
      simp

/-- C8: flushing the queued drafts appends exactly one record per draft
through the log, in enqueue (FIFO) order (`Forall₂` ties the i-th record to
the i-th draft), assigning each record the log's next id at its flush moment
so the ids are the consecutive run starting at `log.next_id`; every appended
record passes chain verification against its predecessor (the old tail for
the first one); the drafts buffer is drained (`[]` after the flush); and the
log gains exactly the new records, in order, at its end.  Hypotheses: the
drafts are valid (worker `unwrap`s would panic otherwise), the log's entries
sit below its next id (true of every log built by appends), and the id run
does not hit the `MAX_ID` wrap. -/
theorem c8_flush (log : FullTransactionLog) (drafts : List QueuedTransaction)
    (clock : Nat → TTime)
    (hvalid : ∀ q ∈ drafts, q.gid ≤ Transaction.MAX_GID ∧ q.pid ≤ Transaction.MAX_PID ∧
      (Transaction.INVALID_CHAR.any (fun c => q.text.contains c)) = false)
    (hall : ∀ t ∈ log.log, t.id < log.next_id)
    (hno : log.next_id + drafts.length ≤ Transaction.MAX_ID + 1) :
    ∃ log2 txs, TransactionQueue.flush log drafts clock = some (log2, [], txs) ∧
      txs.length = drafts.length ∧
      List.Forall₂ (fun q tx => tx.group_id = q.gid ∧ tx.process_id = q.pid ∧
        tx.text = q.text) drafts txs ∧
      txs.map Transaction.id = List.range' log.next_id drafts.length ∧
      List.Chain' (fun a b => Transaction.verify b a = .ok ()) (log.last.toList ++ txs) ∧
      log2.log = log.log ++ txs := by
  obtain ⟨log2, txs, heq, h2, h3, h4, h5, h6⟩ :=
    flushAux_spec clock drafts log 0 (fun q hq => hvalid q hq) (fun _ => hall) hno
  refine ⟨log2, txs, ?_, h2, h3, h4, h5, h6⟩
  unfold TransactionQueue.flush
  rw [heq]
  rfl

def c8drafts : List QueuedTransaction :=
  [{ text := rstr "a", gid := 1, pid := 2 }, { text := rstr "b", gid := 3, pid := 4 }]

/-- Witness for C8: two drafts flushed into the empty log. -/
theorem c8_flush_witness :
    ∃ log2 txs,
      TransactionQueue.flush FullTransactionLog.new c8drafts (fun _ => scenarioTs) =
        some (log2, [], txs) ∧
      txs.length = c8drafts.length ∧
      List.Forall₂ (fun q tx => tx.group_id = q.gid ∧ tx.process_id = q.pid ∧
        tx.text = q.text) c8drafts txs ∧
      txs.map Transaction.id = List.range' FullTransactionLog.new.next_id c8drafts.length ∧
      List.Chain' (fun a b => Transaction.verify b a = .ok ())
        (FullTransactionLog.new.last.toList ++ txs) ∧
      log2.log = FullTransactionLog.new.log ++ txs :=
  c8_flush FullTransactionLog.new c8drafts (fun _ => scenarioTs) (by decide) (by decide)
    (by decide)

/-! ## The durable file log (`src/transaction_log.rs`) -/

/-- Rust `str::split('\n')` pieces (the raw split underlying `lines()`). -/
def splitNl : List Char → List (List Char)
  | [] => [[]]
  | c :: r =>
    if c = '\n' then [] :: splitNl r
    else
      match splitNl r with
      | [] => [[c]]
      | h :: t => (c :: h) :: t

/-- Strip one trailing carriage return (the `\r` of a `\r\n` line ending). -/
def stripCr (l : List Char) : List Char :=
  if l.getLast? = some '\x0d' then l.dropLast else l

/-- Rust `str::lines()`: split at `\n`, drop a final empty piece (a trailing
newline is optional), and strip a `\r` from every newline-terminated piece. -/
def rustLines (s : List Char) : List (List Char) :=
  match s with
  | [] => []
  | _ :: _ =>
    match (splitNl s).reverse with
    | [] => []
    | last :: revInit =>
      if last = [] then (revInit.map stripCr).reverse
      else (revInit.map stripCr).reverse ++ [last]

/-- Byte-level split at `0x0A` (for `BufReader::lines`). -/
def splitNlB : List Nat → List (List Nat)
  | [] => [[]]
  | b :: r =>
    if b = 10 then [] :: splitNlB r
    else
      match splitNlB r with
      | [] => [[b]]
      | h :: t => (b :: h) :: t

def stripCrB (l : List Nat) : List Nat :=
  if l.getLast? = some 13 then l.dropLast else l

/-- `BufReader::lines` on the raw file bytes: like `str::lines`, but each
line is UTF-8-decoded separately (an invalid line is an `io::Error`). -/
def bufLines (bs : List Nat) : List (List Nat) :=
  match bs with
  | [] => []
  | _ :: _ =>
    match (splitNlB bs).reverse with
    | [] => []
    | last :: revInit =>
      if last = [] then (revInit.map stripCrB).reverse
      else (revInit.map stripCrB).reverse ++ [last]

inductive FileErr where
  | io : FileErr
  | transaction : List Char → FileErr
  | verify : List Char → FileErr
  deriving DecidableEq, Repr

inductive FileResult (α : Type) where
  | ok : α → FileResult α
  | err : FileErr → FileResult α
  | panicked : FileResult α
  deriving DecidableEq, Repr

/-- Modelled from the spec (§4.3): the missing free function
`verify_transaction(record, predecessor)` used by the file log —
with a predecessor it is `Transaction::verify`, without one it is
`Transaction::verify_single`. -/
def verify_transaction (tx : Transaction) (prev : Option Transaction) :
    Except (List Char) Unit :=
  match prev with
  | some p => Transaction.verify tx p
  | none => Transaction.verify_single tx

structure TransactionData where
  gid : Nat
  pid : Nat
  text : List Char
  deriving DecidableEq, Repr

/-- Modelled from the spec (§4.1, §3 Hash): the missing
`Transaction::new(id, timestamp, payload, predecessor)` — total on validated
components, computing the hash as the SHA-256 of the canonical partial
string followed by the predecessor's hex hash string (the hex-string chain
form the spec fixes as the authoritative one, matching `with_log`). -/
def Transaction.new (id : Nat) (ts : TTime) (data : TransactionData)
    (prev : Option Transaction) : Transaction :=
  let input :=
    match prev with
    | some p =>
      utf8 (Transaction.partial_string id ts data.gid data.pid data.text) ++ utf8 p.hash_str
    | none => utf8 (Transaction.partial_string id ts data.gid data.pid data.text)
  let h := sha256 input
  { id := id, timestamp := ts, group_id := data.gid, process_id := data.pid,
    text := data.text, hash := h, hash_str := Transaction.hash_string h }

namespace SimpleFileLog

/-- `SimpleFileLog::last` on the file's byte contents: seek to
`max 0 (size - 10240)`, read the tail chunk as UTF-8 (`io::Error` if
invalid), split into lines from the back, parse the last and second-to-last
lines with parse failures swallowed to `None` (`.ok()`), and verify; the
`(Some, None)` combination is the source's `panic!`. -/
def lastTx (file : List Nat) : FileResult (Option Transaction) :=
  let start := if file.length < 10240 then 0 else file.length - 10240
  match utf8Decode (file.drop start) with
  | none => .err .io
  | some buffer =>
    let ls := (rustLines buffer).reverse
    let last_tx := (ls.get? 0).bind (fun l => (Transaction.parse l).toOption)
    let last2_tx := (ls.get? 1).bind (fun l => (Transaction.parse l).toOption)
    match last2_tx, last_tx with
    | some t1, some t2 =>
      match verify_transaction t2 (some t1) with
      | .ok _ => .ok (some t2)
      | .error e => .err (.verify e)
    | none, some t2 =>
      match verify_transaction t2 none with
      | .ok _ => .ok (some t2)
      | .error e => .err (.verify e)
    | none, none => .ok none
    | some _, none => .panicked

/-- The verifying fold of `SimpleFileLog::get_all` over the decoded lines. -/
def getAllAux : Option Transaction → List (List Nat) → FileResult (List Transaction)
  | _, [] => .ok []
  | last, lb :: rest =>
    match utf8Decode lb with
    | none => .err .io
    | some line =>
      match Transaction.parse line with
      | .error e => .err (.transaction e)
      | .ok tx =>
        match verify_transaction tx last with
        | .error e => .err (.verify e)
        | .ok _ =>
          match getAllAux (some tx) rest with
          | .ok txs => .ok (tx :: txs)
          | .err e => .err e
          | .panicked => .panicked

/-- `SimpleFileLog::get_all`: read every line, parse it and verify it
against its predecessor, from the start of the file. -/
def getAllTx (file : List Nat) : FileResult (List Transaction) :=
  getAllAux none (bufLines file)

/-- `SimpleFileLog::create`: take the verified tail (`next_id` and `last`
both go through `lastTx`; the source calls it twice with the same result),
build the next record against it, and append its canonical line to the
file.  `now` supplies `TransactionTime::current()`; the default id of the
missing `TransactionId` type is `MIN_ID` (spec §4.4). -/
def create (file : List Nat) (data : TransactionData) (time : Option TTime) (now : TTime) :
    FileResult (Transaction × List Nat) :=
  match lastTx file with
  | .panicked => .panicked
  | .err e => .err e
  | .ok lastO =>
    let id :=
      match lastO with
      | some t => t.next_id
      | none => Transaction.MIN_ID
    let tx := Transaction.new id (time.getD now) data lastO
    .ok (tx, file ++ utf8 (Transaction.to_string tx ++ ['\n']))

end SimpleFileLog

/-- `DualLog`: the in-memory index next to the durable file. -/
structure DualLog where
  full_log : FullTransactionLog
  file_log : List Nat
  deriving DecidableEq, Repr

/-- `DualLog::create`: append to the file first; only on success mirror the
record into the in-memory index. -/
def DualLog.create (d : DualLog) (data : TransactionData) (time : Option TTime) (now : TTime) :
    FileResult Transaction × DualLog :=
  match SimpleFileLog.create d.file_log data time now with
  | .ok (tx, file2) =>
    (.ok tx, { full_log := d.full_log.append tx, file_log := file2 })
  | .err e => (.err e, d)
  | .panicked => (.panicked, d)

/-! ## ASCII facts and line-splitting lemmas -/

lemma utf8_ascii (s : List Char) (h : ∀ c ∈ s, c.toNat < 128) :
    utf8 s = s.map Char.toNat := by
  induction s with
  | nil => rfl
  | cons c r ih =>
    have hc := h c (List.mem_cons_self c r)
    show utf8Char c ++ utf8 r = c.toNat :: r.map Char.toNat
    rw [utf8Char]
    simp only [hc, if_pos]
    rw [ih (fun x hx => h x (List.mem_cons_of_mem c hx))]
    rfl

lemma utf8DecodeAux_ascii (s : List Char) (h : ∀ c ∈ s, c.toNat < 128) :
    utf8DecodeAux (s.map Char.toNat).length (s.map Char.toNat) = some s := by
  induction s with
  | nil => rfl
  | cons c r ih =>
    have hc := h c (List.mem_cons_self c r)
    show utf8DecodeAux (r.map Char.toNat).length.succ (c.toNat :: r.map Char.toNat) = some (c :: r)
    rw [utf8DecodeAux.eq_def]
    simp only [hc, if_true]
    rw [ih (fun x hx => h x (List.mem_cons_of_mem c hx))]
    simp [Char.ofNat_toNat]

lemma utf8Decode_ascii (s : List Char) (h : ∀ c ∈ s, c.toNat < 128) :
    utf8Decode (s.map Char.toNat) = some s := by
  unfold utf8Decode
  exact utf8DecodeAux_ascii s h

lemma splitNl_ne_nil (s : List Char) : splitNl s ≠ [] := by
  cases s with
  | nil => simp [splitNl]
  | cons c r =>
    rw [splitNl]
    by_cases hc : c = '\n'
    · simp [hc]
    · simp only [hc, if_neg, if_false]
      cases splitNl r <;> simp

lemma splitNl_cons_nl (y : List Char) : splitNl ('\n' :: y) = [] :: splitNl y := by
  rw [splitNl.eq_def]
  simp

lemma splitNl_cons_ne (c : Char) (y : List Char) (hc : c ≠ '\n') :
    splitNl (c :: y) = match splitNl y with
      | [] => [[c]]
      | h :: t => (c :: h) :: t := by
  rw [splitNl.eq_def]
  simp only [hc, if_false, if_neg]

lemma splitNl_append (x y : List Char) :
    splitNl (x ++ '\n' :: y) = splitNl x ++ splitNl y := by
  induction x with
  | nil =>
    rw [List.nil_append, splitNl_cons_nl]
    rfl
  | cons c r ih =>
    by_cases hc : c = '\n'
    · subst hc
      rw [List.cons_append, splitNl_cons_nl, splitNl_cons_nl, ih]
      rfl
    · rw [List.cons_append, splitNl_cons_ne c _ hc, splitNl_cons_ne c r hc, ih]
      cases hs : splitNl r with
      | nil => exact absurd hs (splitNl_ne_nil r)
      | cons h t => rfl

lemma splitNl_no_nl (a : List Char) (h : '\n' ∉ a) : splitNl a = [a] := by
  induction a with
  | nil => rfl
  | cons c r ih =>
    have hc : c ≠ '\n' := fun he => h (he ▸ List.mem_cons_self c r)
    rw [splitNl, if_neg hc, ih (fun hm => h (List.mem_cons_of_mem c hm))]

lemma stripCr_of_not_cr (l : List Char) (h : l.getLast? ≠ some '\x0d') : stripCr l = l := by
  unfold stripCr
  rw [if_neg h]

/-! ## C5 and C10 -/

/-- C5: if the append to the durable file log fails, the dual store is left
completely unchanged — in particular no entry enters the in-memory index and
its tail is what it was before the call; the index is only touched in the
success branch, after the file append. -/
theorem c5_dual_create (d : DualLog) (data : TransactionData) (time : Option TTime)
    (now : TTime) (e : FileErr) (h : (DualLog.create d data time now).1 = .err e) :
    (DualLog.create d data time now).2 = d := by
  unfold DualLog.create at h ⊢
  revert h
  cases SimpleFileLog.create d.file_log data time now with
  | ok p =>
    cases p with
    | mk tx file2 =>
      intro h
      exact absurd h (by simp)
  | err e2 => intro _; rfl
  | panicked => intro _; rfl

/-- A two-record file whose ids are not consecutive: both lines parse but
the tail verification fails, so the file append errors out. -/
def c5file : List Nat :=
  utf8 (rstr "00000001;041017-10:00:00;00;01;a;00" ++ '\n' ::
    rstr "00000005;041017-10:00:00;00;01;b;00" ++ ['\n'])

def c5dual : DualLog := { full_log := FullTransactionLog.new, file_log := c5file }

/-- Witness for C5: the create call fails with the verification error and
the dual store (in particular the in-memory index) is unchanged. -/
theorem c5_dual_create_witness :
    (DualLog.create c5dual { gid := 0, pid := 1, text := rstr "x" } none scenarioTs).1 =
      .err (.verify (rstr "Non-consecutive IDs")) ∧
    (DualLog.create c5dual { gid := 0, pid := 1, text := rstr "x" } none scenarioTs).2 =
      c5dual :=
  ⟨by decide,
    c5_dual_create c5dual { gid := 0, pid := 1, text := rstr "x" } none scenarioTs
      (.verify (rstr "Non-consecutive IDs")) (by decide)⟩

/-- The whole rendered two-line file is ASCII when both lines are. -/
lemma twoLine_ascii (l1 l2 : List Char) (hA : ∀ c ∈ l1, c.toNat < 128)
    (hB : ∀ c ∈ l2, c.toNat < 128) :
    ∀ c ∈ l1 ++ '\n' :: (l2 ++ ['\n']), c.toNat < 128 := by
  intro c hc
  rcases List.mem_append.mp hc with h | h
  · exact hA c h
  · rcases List.mem_cons.mp h with h | h
    · subst h; decide
    · rcases List.mem_append.mp h with h | h
      · exact hB c h
      · rw [List.mem_singleton.mp h]; decide

/-- `str::lines` of two newline-terminated pieces. -/
lemma rustLines_two (l1 l2 : List Char) (hn1 : '\n' ∉ l1) (hn2 : '\n' ∉ l2)
    (hr1 : l1.getLast? ≠ some '\x0d') (hr2 : l2.getLast? ≠ some '\x0d') :
    rustLines (l1 ++ '\n' :: (l2 ++ ['\n'])) = [l1, l2] := by
  have hsplit : splitNl (l1 ++ '\n' :: (l2 ++ ['\n'])) = [l1, l2, []] := by
    rw [splitNl_append, splitNl_no_nl l1 hn1, splitNl_append l2 [], splitNl_no_nl l2 hn2]
    rfl
  obtain ⟨c, rest, hcr⟩ : ∃ c rest, l1 ++ '\n' :: (l2 ++ ['\n']) = c :: rest := by
    cases l1 with
    | nil => exact ⟨_, _, rfl⟩
    | cons a r => exact ⟨_, _, rfl⟩
  rw [hcr] at hsplit ⊢
  rw [rustLines.eq_def]
  simp [hsplit, stripCr_of_not_cr l1 hr1, stripCr_of_not_cr l2 hr2]

/-- C10: in the tail-scan recovery of `SimpleFileLog::last`, a line that
fails to parse is swallowed to `None` rather than surfaced as an error; so
on a file whose final line does not parse (a torn partial write) while the
second-to-last line parses, `last()` hits the `(Some, None)` arm and panics
instead of returning an `Err` value. -/
theorem c10_torn_tail (l1 l2 : List Char) (t1 : Transaction)
    (hA : ∀ c ∈ l1, c.toNat < 128) (hB : ∀ c ∈ l2, c.toNat < 128)
    (hn1 : '\n' ∉ l1) (hn2 : '\n' ∉ l2)
    (hr1 : l1.getLast? ≠ some '\x0d') (hr2 : l2.getLast? ≠ some '\x0d')
    (hlen : l1.length + l2.length + 2 < 10240)
    (hp1 : Transaction.parse l1 = .ok t1)
    (hp2 : (Transaction.parse l2).toOption = none) :
    SimpleFileLog.lastTx (utf8 (l1 ++ '\n' :: (l2 ++ ['\n']))) = .panicked := by
  have hall := twoLine_ascii l1 l2 hA hB
  have hmap := utf8_ascii _ hall
  have hlt : (utf8 (l1 ++ '\n' :: (l2 ++ ['\n']))).length < 10240 := by
    rw [hmap, List.length_map]
    simp only [List.length_append, List.length_cons, List.length_nil]
    omega
  have hdec : utf8Decode (utf8 (l1 ++ '\n' :: (l2 ++ ['\n']))) =
      some (l1 ++ '\n' :: (l2 ++ ['\n'])) := by
    rw [hmap]
    exact utf8Decode_ascii _ hall
  have hlines := rustLines_two l1 l2 hn1 hn2 hr1 hr2
  simp only [SimpleFileLog.lastTx]
  rw [if_pos hlt, List.drop_zero, hdec]
  cases hq : Transaction.parse l2 with
  | ok t2 =>
    rw [hq] at hp2
    exact absurd hp2 (by simp [Except.toOption])
  | error e =>
    simp [hlines, hp1, hq, Except.toOption]

def c10l1 : List Char := rstr "00000001;041017-10:00:00;00;01;a;00"

/-- A torn final line: the first bytes of a record whose write was cut off. -/
def c10l2 : List Char := rstr "00000002;041017-10"

def c10tx : Transaction :=
  { id := 1, timestamp := scenarioTs, group_id := 0, process_id := 1, text := rstr "a",
    hash := [0], hash_str := rstr "00" }

/-- Witness for C10: on a concrete file whose last line is torn mid-record,
recovery panics. -/
theorem c10_torn_tail_witness :
    SimpleFileLog.lastTx (utf8 (c10l1 ++ '\n' :: (c10l2 ++ ['\n']))) = .panicked :=
  c10_torn_tail c10l1 c10l2 c10tx (by decide) (by decide) (by decide) (by decide)
    (by decide) (by decide) (by decide) (by decide) (by decide)

/-! ## C4: block structure of SHA-256 over a long message -/

lemma chunks64_nil (fuel : Nat) : chunks64 fuel [] = [] := by
  cases fuel <;> rfl

lemma chunks64_cons (fuel : Nat) (a b : List Nat) (ha : a.length = 64) :
    chunks64 (fuel + 1) (a ++ b) = a :: chunks64 fuel b := by
  cases a with
  | nil => simp at ha
  | cons x a' =>
    rw [List.cons_append]
    show (x :: (a' ++ b)).take 64 :: chunks64 fuel ((x :: (a' ++ b)).drop 64) = _
    rw [← List.cons_append, List.take_left' ha, List.drop_left' ha]

lemma chunks64_exact (fuel : Nat) (a : List Nat) (ha : a.length = 64) :
    chunks64 (fuel + 1) a = [a] := by
  have h := chunks64_cons fuel a [] ha
  rw [List.append_nil] at h
  rw [h, chunks64_nil]

lemma chunks64_replicate (a : Nat) : ∀ (n fuel : Nat) (rest : List Nat),
    chunks64 (n + (fuel + 1)) (List.replicate (n * 64) a ++ rest) =
      List.replicate n (List.replicate 64 a) ++ chunks64 (fuel + 1) rest := by
  intro n
  induction n with
  | zero => intro fuel rest; simp
  | succ m ih =>
    intro fuel rest
    have hrep : List.replicate ((m + 1) * 64) a =
        List.replicate 64 a ++ List.replicate (m * 64) a := by
      rw [← List.replicate_add]
      congr 1
      ring
    have hfu : m + 1 + (fuel + 1) = (m + (fuel + 1)) + 1 := by omega
    rw [hrep, List.append_assoc, hfu,
      chunks64_cons (m + (fuel + 1)) _ _ (by simp), ih fuel rest]
    rfl

/-! ## Single-line files -/

lemma rustLines_one (l : List Char) (hn : '\n' ∉ l) (hr : l.getLast? ≠ some '\x0d') :
    rustLines (l ++ ['\n']) = [l] := by
  have hsplit : splitNl (l ++ ['\n']) = [l, []] := by
    rw [show l ++ ['\n'] = l ++ '\n' :: ([] : List Char) from rfl, splitNl_append,
      splitNl_no_nl l hn]
    rfl
  obtain ⟨c, rest, hcr⟩ : ∃ c rest, l ++ ['\n'] = c :: rest := by
    cases l with
    | nil => exact ⟨_, _, rfl⟩
    | cons a r => exact ⟨_, _, rfl⟩
  rw [hcr] at hsplit ⊢
  rw [rustLines.eq_def]
  simp [hsplit, stripCr_of_not_cr l hr]

lemma splitNlB_ne_nil (s : List Nat) : splitNlB s ≠ [] := by
  cases s with
  | nil => simp [splitNlB]
  | cons c r =>
    rw [splitNlB.eq_def]
    by_cases hc : c = 10
    · simp [hc]
    · simp only [hc, if_neg, if_false]
      cases splitNlB r <;> simp

lemma splitNlB_cons_nl (y : List Nat) : splitNlB (10 :: y) = [] :: splitNlB y := by
  rw [splitNlB.eq_def]
  simp

lemma splitNlB_cons_ne (c : Nat) (y : List Nat) (hc : c ≠ 10) :
    splitNlB (c :: y) = match splitNlB y with
      | [] => [[c]]
      | h :: t => (c :: h) :: t := by
  rw [splitNlB.eq_def]
  simp only [hc, if_false, if_neg]

lemma splitNlB_no_nl (a : List Nat) (h : 10 ∉ a) : splitNlB a = [a] := by
  induction a with
  | nil => rfl
  | cons c r ih =>
    have hc : c ≠ 10 := fun he => h (he ▸ List.mem_cons_self c r)
    rw [splitNlB_cons_ne c r hc, ih (fun hm => h (List.mem_cons_of_mem c hm))]

lemma splitNlB_append (x y : List Nat) :
    splitNlB (x ++ 10 :: y) = splitNlB x ++ splitNlB y := by
  induction x with
  | nil =>
    rw [List.nil_append, splitNlB_cons_nl]
    rfl
  | cons c r ih =>
    by_cases hc : c = 10
    · subst hc
      rw [List.cons_append, splitNlB_cons_nl, splitNlB_cons_nl, ih]
      rfl
    · rw [List.cons_append, splitNlB_cons_ne c _ hc, splitNlB_cons_ne c r hc, ih]
      cases hs : splitNlB r with
      | nil => exact absurd hs (splitNlB_ne_nil r)
      | cons h t => rfl

lemma stripCrB_of_not_cr (l : List Nat) (h : l.getLast? ≠ some 13) : stripCrB l = l := by
  unfold stripCrB
  rw [if_neg h]

lemma bufLines_one (b : List Nat) (hn : 10 ∉ b) (hr : b.getLast? ≠ some 13) :
    bufLines (b ++ [10]) = [b] := by
  have hsplit : splitNlB (b ++ [10]) = [b, []] := by
    rw [show b ++ [10] = b ++ 10 :: ([] : List Nat) from rfl, splitNlB_append,
      splitNlB_no_nl b hn]
    rfl
  obtain ⟨c, rest, hcr⟩ : ∃ c rest, b ++ [10] = c :: rest := by
    cases b with
    | nil => exact ⟨_, _, rfl⟩
    | cons a r => exact ⟨_, _, rfl⟩
  rw [hcr] at hsplit ⊢
  rw [bufLines.eq_def]
  simp [hsplit, stripCrB_of_not_cr b hr]

/-- Rust's `from_str` for an unsigned integer rejects a string whose first
character is `a`. -/
lemma rustParseNat_a (bound : Nat) (w : List Char) : rustParseNat bound ('a' :: w) = none := by
  have h : isDigit 'a' = false := by decide
  simp [rustParseNat, stripPlus, digitsValAux, h]

/-! ## C4: the counterexample record, longer than the tail chunk -/

def c4hdrC : List Char := rstr "00000001;041017-10:00:00;00;01;"

def c4hdrB : List Nat := List.map Char.toNat c4hdrC

def c4text : List Char := List.replicate 10208 'a'

/-- The SHA-256 digest of the canonical partial string of the record below
(10240 bytes: the 31-byte header, 10208 `a`s and the closing `;`). -/
def c4hash : List Nat :=
  [196, 83, 28, 253, 201, 145, 56, 64, 10, 208, 16, 106, 237, 192, 25, 172, 83, 97, 208, 212, 208, 2, 175, 188, 143, 250, 241, 202, 49, 224, 30, 176]

/-- A single record whose canonical line (10304 characters plus the newline)
is longer than the 10240-byte chunk `SimpleFileLog::last` reads. -/
def cex4tx : Transaction :=
  { id := 1, timestamp := scenarioTs, group_id := 0, process_id := 1, text := c4text,
    hash := c4hash, hash_str := Transaction.hash_string c4hash }

def c4B0 : List Nat := c4hdrB ++ List.replicate 33 97

def c4B159 : List Nat := List.replicate 63 97 ++ [59]

def c4B160 : List Nat := 128 :: (List.replicate 55 0 ++ [0, 0, 0, 0, 0, 1, 64, 0])

def c4file : List Nat := utf8 (Transaction.to_string cex4tx ++ ['\n'])

lemma c4hdrSplit (x : List Char) :
    Transaction.partial_string 1 scenarioTs 0 1 x = c4hdrC ++ (x ++ [';']) := rfl

lemma c4hdrC_ascii : ∀ c ∈ c4hdrC, c.toNat < 128 := by decide

lemma c4text_ascii : ∀ c ∈ c4text, c.toNat < 128 := by
  intro c hc
  rw [List.eq_of_mem_replicate hc]
  decide

lemma c4msgAscii :
    ∀ c ∈ Transaction.partial_string 1 scenarioTs 0 1 c4text, c.toNat < 128 := by
  intro c hc
  rw [c4hdrSplit] at hc
  rcases List.mem_append.mp hc with h | h
  · exact c4hdrC_ascii c h
  · rcases List.mem_append.mp h with h | h
    · exact c4text_ascii c h
    · rw [List.mem_singleton.mp h]
      decide

lemma c4map : utf8 (Transaction.partial_string 1 scenarioTs 0 1 c4text) =
    c4hdrB ++ (List.replicate 10208 97 ++ [59]) := by
  rw [utf8_ascii _ c4msgAscii, c4hdrSplit, List.map_append, List.map_append,
    show c4text = List.replicate 10208 'a' from rfl, List.map_replicate]
  rfl

lemma c4hdrB_len : c4hdrB.length = 31 := by decide

lemma c4msg_len : (c4hdrB ++ (List.replicate 10208 97 ++ [59])).length = 10240 := by
  rw [List.length_append, List.length_append, List.length_replicate, c4hdrB_len]
  rfl

lemma c4B0_len : c4B0.length = 64 := by decide

lemma c4B159_len : c4B159.length = 64 := by decide

lemma c4B160_len : c4B160.length = 64 := by decide

/-- The digest of the counterexample's partial string, computed block by
block: one header block, 158 all-`a` blocks, the closing block and the
padding block. -/
lemma c4_sha : sha256 (utf8 (Transaction.partial_string 1 scenarioTs 0 1 c4text)) = c4hash := by
  rw [c4map]
  show (List.foldl compressBlock sha256H0
      (chunks64 ((sha256pad (c4hdrB ++ (List.replicate 10208 97 ++ [59]))).length + 1)
        (sha256pad (c4hdrB ++ (List.replicate 10208 97 ++ [59]))))).flatMap (beBytes 4) = c4hash
  have hpad : sha256pad (c4hdrB ++ (List.replicate 10208 97 ++ [59])) =
      (c4hdrB ++ (List.replicate 10208 97 ++ [59])) ++
        128 :: List.replicate 55 0 ++ [0, 0, 0, 0, 0, 1, 64, 0] := by
    unfold sha256pad
    rw [c4msg_len, show ((119 - 10240 % 64) % 64 : Nat) = 55 from by norm_num,
      show (8 * 10240 : Nat) = 81920 from by norm_num,
      show beBytes 8 81920 = [0, 0, 0, 0, 0, 1, 64, 0] from by decide]
  have hplen : (sha256pad (c4hdrB ++ (List.replicate 10208 97 ++ [59]))).length = 10304 := by
    rw [hpad]
    simp only [List.length_append, List.length_cons, List.length_replicate, c4msg_len]
    rfl
  rw [hplen, hpad]
  have hsplit : (c4hdrB ++ (List.replicate 10208 97 ++ [59])) ++
      128 :: List.replicate 55 0 ++ [0, 0, 0, 0, 0, 1, 64, 0] =
      c4B0 ++ (List.replicate 10112 97 ++ (c4B159 ++ c4B160)) := by
    rw [show (10208 : Nat) = 33 + (10112 + 63) from by norm_num, List.replicate_add,
      List.replicate_add]
    simp only [c4B0, c4B159, c4B160, List.append_assoc, List.cons_append,
      List.singleton_append]
  rw [hsplit, chunks64_cons 10304 _ _ c4B0_len,
    show (10304 : Nat) = 158 + (10145 + 1) from by norm_num,
    show (10112 : Nat) = 158 * 64 from by norm_num,
    chunks64_replicate 97 158 10145 (c4B159 ++ c4B160),
    chunks64_cons 10145 _ _ c4B159_len,
    show (10145 : Nat) = 10144 + 1 from by norm_num,
    chunks64_exact 10144 c4B160 c4B160_len]
  have hfold : List.foldl compressBlock sha256H0
      (c4B0 :: (List.replicate 158 (List.replicate 64 97) ++ [c4B159, c4B160])) =
      [3293781245, 3381737536, 181407850, 3988789676, 1398919380, 3489836988, 2415587786, 836771504] := by
    decide
  rw [hfold]
  decide

def c4hashstr : List Char := Transaction.hash_string c4hash

lemma c4line_eq : Transaction.to_string cex4tx = c4hdrC ++ (c4text ++ (';' :: c4hashstr)) := by
  show Transaction.partial_string 1 scenarioTs 0 1 c4text ++ c4hashstr = _
  rw [c4hdrSplit, List.append_assoc, List.append_assoc, List.singleton_append]

lemma c4hashstr_ascii : ∀ c ∈ ';' :: c4hashstr, c.toNat < 128 := by decide

lemma c4line_ascii : ∀ c ∈ Transaction.to_string cex4tx, c.toNat < 128 := by
  rw [c4line_eq]
  intro c hc
  rcases List.mem_append.mp hc with h | h
  · exact c4hdrC_ascii c h
  · rcases List.mem_append.mp h with h | h
    · exact c4text_ascii c h
    · exact c4hashstr_ascii c h

lemma c4line_no_nl : '\n' ∉ Transaction.to_string cex4tx := by
  rw [c4line_eq]
  intro hc
  rcases List.mem_append.mp hc with h | h
  · exact absurd h (by decide)
  · rcases List.mem_append.mp h with h | h
    · exact absurd (List.eq_of_mem_replicate h) (by decide)
    · exact absurd h (by decide)

lemma c4line_last : (Transaction.to_string cex4tx).getLast? = some '0' := by
  rw [c4line_eq, List.getLast?_append_of_ne_nil _ (by simp),
    List.getLast?_append_of_ne_nil _ (by simp)]
  decide

lemma c4file_eq : c4file = List.map Char.toNat (Transaction.to_string cex4tx) ++ [10] := by
  have hall : ∀ c ∈ Transaction.to_string cex4tx ++ ['\n'], c.toNat < 128 := by
    intro c hc
    rcases List.mem_append.mp hc with h | h
    · exact c4line_ascii c h
    · rw [List.mem_singleton.mp h]
      decide
  show utf8 (Transaction.to_string cex4tx ++ ['\n']) = _
  rw [utf8_ascii _ hall, List.map_append]
  rfl

lemma c4hdrC_len : c4hdrC.length = 31 := by decide

lemma c4hashstr_len : c4hashstr.length = 64 := by decide

lemma c4file_len : c4file.length = 10305 := by
  rw [c4file_eq, List.length_append, List.length_map, c4line_eq, List.length_append,
    List.length_append, List.length_cons,
    show c4text = List.replicate 10208 'a' from rfl, List.length_replicate,
    c4hdrC_len, c4hashstr_len]
  rfl

lemma c4text_contains (c : Char) (hc : c ≠ 'a') : c4text.contains c = false := by
  show (List.replicate 10208 'a').elem c = false
  refine Bool.eq_false_iff.mpr (fun he => hc ?_)
  exact List.eq_of_mem_replicate (List.elem_iff.mp he)

lemma c4_invalid : Transaction.INVALID_CHAR.any (fun c => c4text.contains c) = false := by
  rw [List.any_eq_false]
  intro c hc
  have hne : c ≠ 'a' := by fin_cases hc <;> decide
  rw [c4text_contains c hne]
  simp

lemma c4_parse : Transaction.parse (Transaction.to_string cex4tx) = .ok cex4tx :=
  roundtrip_of_valid cex4tx (by decide) (by decide) (by decide) (by decide) c4_invalid
    (by decide) (by decide) (by decide) (by decide) rfl

lemma c4_verify : verify_transaction cex4tx none = .ok () := by
  show Transaction.verify_single cex4tx = .ok ()
  simp only [Transaction.verify_single]
  rw [show cex4tx.to_data_string = Transaction.partial_string 1 scenarioTs 0 1 c4text from rfl,
    c4_sha, show cex4tx.hash = c4hash from rfl, if_neg (fun h => h rfl)]

lemma getAllAux_single (lb : List Nat) (line : List Char) (tx : Transaction)
    (hdec : utf8Decode lb = some line) (hp : Transaction.parse line = .ok tx)
    (hv : verify_transaction tx none = .ok ()) :
    SimpleFileLog.getAllAux none [lb] = .ok [tx] := by
  rw [SimpleFileLog.getAllAux]
  simp only [hdec, hp, hv, SimpleFileLog.getAllAux]

lemma c4_getAll : SimpleFileLog.getAllTx c4file = .ok [cex4tx] := by
  have hb10 : 10 ∉ List.map Char.toNat (Transaction.to_string cex4tx) := by
    intro hm
    rcases List.mem_map.mp hm with ⟨c, hc, he⟩
    have hcn : c = '\n' := by
      rw [← Char.ofNat_toNat c, he]
    exact c4line_no_nl (hcn ▸ hc)
  have hbl : (List.map Char.toNat (Transaction.to_string cex4tx)).getLast? ≠ some 13 := by
    rw [List.getLast?_map, c4line_last]
    decide
  have hbuf : bufLines c4file = [List.map Char.toNat (Transaction.to_string cex4tx)] := by
    rw [c4file_eq, bufLines_one _ hb10 hbl]
  have hdecL : utf8Decode (List.map Char.toNat (Transaction.to_string cex4tx)) =
      some (Transaction.to_string cex4tx) := utf8Decode_ascii _ c4line_ascii
  unfold SimpleFileLog.getAllTx
  rw [hbuf]
  exact getAllAux_single _ _ _ hdecL c4_parse c4_verify

lemma lastTx_long_none (file : List Nat) (t l : List Char)
    (hlen : ¬ file.length < 10240)
    (hdec : utf8Decode (file.drop (file.length - 10240)) = some t)
    (hlines : rustLines t = [l])
    (hp : (Transaction.parse l).toOption = none) :
    SimpleFileLog.lastTx file = .ok none := by
  simp only [SimpleFileLog.lastTx, if_neg hlen, hdec, hlines]
  simp [hp]

lemma c4file_eq2 : c4file = List.map Char.toNat (Transaction.to_string cex4tx ++ ['\n']) := by
  refine utf8_ascii _ ?_
  intro c hc
  rcases List.mem_append.mp hc with h | h
  · exact c4line_ascii c h
  · rw [List.mem_singleton.mp h]
    decide

lemma c4tail : c4file.drop (c4file.length - 10240) =
    List.map Char.toNat (List.replicate 10174 'a' ++ (';' :: (c4hashstr ++ ['\n']))) := by
  have hchars : Transaction.to_string cex4tx ++ ['\n'] =
      (c4hdrC ++ List.replicate 34 'a') ++
        (List.replicate 10174 'a' ++ (';' :: (c4hashstr ++ ['\n']))) := by
    rw [c4line_eq, show c4text = List.replicate 10208 'a' from rfl,
      show (10208 : Nat) = 34 + 10174 from by norm_num, List.replicate_add]
    simp only [List.append_assoc, List.cons_append, List.singleton_append]
  have hlen65 : (c4hdrC ++ List.replicate 34 'a').length = 65 := by
    rw [List.length_append, c4hdrC_len, List.length_replicate]
  rw [c4file_len, show (10305 : Nat) - 10240 = 65 from by norm_num, c4file_eq2,
    ← List.map_drop, hchars, List.drop_left' hlen65]

lemma c4tail_ascii :
    ∀ c ∈ List.replicate 10174 'a' ++ (';' :: (c4hashstr ++ ['\n'])), c.toNat < 128 := by
  intro c hc
  rcases List.mem_append.mp hc with h | h
  · rw [List.eq_of_mem_replicate h]
    decide
  · rcases List.mem_cons.mp h with h | h
    · rw [h]
      decide
    · rcases List.mem_append.mp h with h | h
      · exact c4hashstr_ascii c (List.mem_cons_of_mem ';' h)
      · rw [List.mem_singleton.mp h]
        decide

lemma c4_last : SimpleFileLog.lastTx c4file = .ok none := by
  have hdec : utf8Decode (c4file.drop (c4file.length - 10240)) =
      some (List.replicate 10174 'a' ++ (';' :: (c4hashstr ++ ['\n']))) := by
    rw [c4tail]
    exact utf8Decode_ascii _ c4tail_ascii
  have hnl : '\n' ∉ List.replicate 10174 'a' ++ (';' :: c4hashstr) := by
    intro hc
    rcases List.mem_append.mp hc with h | h
    · exact absurd (List.eq_of_mem_replicate h) (by decide)
    · exact absurd h (by decide)
  have hcr : (List.replicate 10174 'a' ++ (';' :: c4hashstr)).getLast? ≠ some '\x0d' := by
    rw [List.getLast?_append_of_ne_nil _ (by simp)]
    decide
  have hlines : rustLines (List.replicate 10174 'a' ++ (';' :: (c4hashstr ++ ['\n']))) =
      [List.replicate 10174 'a' ++ (';' :: c4hashstr)] := by
    have he : List.replicate 10174 'a' ++ (';' :: (c4hashstr ++ ['\n'])) =
        (List.replicate 10174 'a' ++ (';' :: c4hashstr)) ++ ['\n'] := by
      simp only [List.append_assoc, List.cons_append]
    rw [he, rustLines_one _ hnl hcr]
  have hp : (Transaction.parse (List.replicate 10174 'a' ++ (';' :: c4hashstr))).toOption =
      none := by
    have hsemi : ';' ∉ List.replicate 10174 'a' := fun h =>
      absurd (List.eq_of_mem_replicate h) (by decide)
    have hrp : rustParseNat 4294967295 (List.replicate 10174 'a') = none := by
      rw [show (10174 : Nat) = 10173 + 1 from by norm_num, List.replicate_succ]
      exact rustParseNat_a _ _
    unfold Transaction.parse
    rw [splitSemi_append _ _ hsemi, splitSemi_no_semi c4hashstr (by decide),
      Transaction.parse_fields, hrp, Transaction.parse_after_id]
    rfl
  have hlen : ¬ c4file.length < 10240 := by
    rw [c4file_len]
    norm_num
  exact lastTx_long_none c4file _ _ hlen hdec hlines hp

lemma invalid_not_mem_nl_cr {x : List Char}
    (h : Transaction.INVALID_CHAR.any (fun c => x.contains c) = false) :
    '\n' ∉ x ∧ '\x0d' ∉ x := by
  simp only [Transaction.INVALID_CHAR, List.any_cons, List.any_nil, Bool.or_eq_false_iff] at h
  constructor
  · intro hm
    have hc : x.elem '\n' = false := h.1
    have he : x.elem '\n' = true := List.elem_iff.mpr hm
    rw [hc] at he
    exact Bool.noConfusion he
  · intro hm
    have hc : x.elem '\x0d' = false := h.2.1
    have he : x.elem '\x0d' = true := List.elem_iff.mpr hm
    rw [hc] at he
    exact Bool.noConfusion he

lemma to_string_chars (t : Transaction)
    (h9 : ∀ b ∈ t.hash, b < 256) (h10 : t.hash_str = Transaction.hash_string t.hash) :
    ∀ c ∈ Transaction.to_string t,
      isDigit c = true ∨ c = ':' ∨ c = '-' ∨ c = ';' ∨ c ∈ t.text ∨
        ∃ d, d < 16 ∧ c = hexDigitUp d := by
  intro c hc
  unfold Transaction.to_string Transaction.to_data_string Transaction.partial_string at hc
  rw [h10] at hc
  simp only [List.mem_append, List.mem_cons, List.not_mem_nil, or_false] at hc
  rcases hc with (((((h | (h | h)) | (h | h)) | (h | h)) | (h | h)) | h) | h
  · exact Or.inl (mem_fmt08_digit h)
  · exact Or.inr (Or.inr (Or.inr (Or.inl h)))
  · rcases fmtTs_chars h with hd | hd | hd
    · exact Or.inl hd
    · exact Or.inr (Or.inr (Or.inl hd))
    · exact Or.inr (Or.inl hd)
  · exact Or.inr (Or.inr (Or.inr (Or.inl h)))
  · exact Or.inl (mem_fmt02_digit h)
  · exact Or.inr (Or.inr (Or.inr (Or.inl h)))
  · exact Or.inl (mem_fmt02_digit h)
  · exact Or.inr (Or.inr (Or.inr (Or.inl h)))
  · exact Or.inr (Or.inr (Or.inr (Or.inr (Or.inl h))))
  · exact Or.inr (Or.inr (Or.inr (Or.inl h)))
  · rcases mem_hash_string h9 c h with ⟨d, hd, he⟩
    exact Or.inr (Or.inr (Or.inr (Or.inr (Or.inr ⟨d, hd, he⟩))))

lemma isDigit_ascii {c : Char} (h : isDigit c = true) : c.toNat < 128 := by
  unfold isDigit at h
  simp only [Bool.and_eq_true, decide_eq_true_eq] at h
  omega

lemma hexDigitUp_ascii {d : Nat} (hd : d < 16) : (hexDigitUp d).toNat < 128 := by
  have ht := hexDigitUp_toNat hd
  split_ifs at ht <;> omega

lemma hexDigitUp_ne_low {d : Nat} (hd : d < 16) {c : Char} (hc : c.toNat < 48) :
    hexDigitUp d ≠ c := by
  intro he
  have ht := hexDigitUp_toNat hd
  rw [he] at ht
  split_ifs at ht <;> omega

lemma to_string_ascii (t : Transaction)
    (h9 : ∀ b ∈ t.hash, b < 256) (h10 : t.hash_str = Transaction.hash_string t.hash)
    (htext : ∀ c ∈ t.text, c.toNat < 128) :
    ∀ c ∈ Transaction.to_string t, c.toNat < 128 := by
  intro c hc
  rcases to_string_chars t h9 h10 c hc with h | h | h | h | h | ⟨d, hd, he⟩
  · exact isDigit_ascii h
  · rw [h]; decide
  · rw [h]; decide
  · rw [h]; decide
  · exact htext c h
  · rw [he]; exact hexDigitUp_ascii hd

lemma to_string_no_nl (t : Transaction)
    (h9 : ∀ b ∈ t.hash, b < 256) (h10 : t.hash_str = Transaction.hash_string t.hash)
    (h5 : Transaction.INVALID_CHAR.any (fun c => t.text.contains c) = false) :
    '\n' ∉ Transaction.to_string t := by
  intro hc
  rcases to_string_chars t h9 h10 '\n' hc with h | h | h | h | h | ⟨d, hd, he⟩
  · exact absurd h (by decide)
  · exact absurd h (by decide)
  · exact absurd h (by decide)
  · exact absurd h (by decide)
  · exact (invalid_not_mem_nl_cr h5).1 h
  · exact hexDigitUp_ne_low hd (by decide) he.symm

lemma to_string_last_ne_cr (t : Transaction)
    (h9 : ∀ b ∈ t.hash, b < 256) (h10 : t.hash_str = Transaction.hash_string t.hash)
    (h5 : Transaction.INVALID_CHAR.any (fun c => t.text.contains c) = false) :
    (Transaction.to_string t).getLast? ≠ some '\x0d' := by
  intro hge
  have hm : '\x0d' ∈ Transaction.to_string t := List.mem_of_mem_getLast? hge
  rcases to_string_chars t h9 h10 '\x0d' hm with h | h | h | h | h | ⟨d, hd, he⟩
  · exact absurd h (by decide)
  · exact absurd h (by decide)
  · exact absurd h (by decide)
  · exact absurd h (by decide)
  · exact (invalid_not_mem_nl_cr h5).2 h
  · exact hexDigitUp_ne_low hd (by decide) he.symm

/-- The validity invariant every record the program itself builds satisfies:
fields in range, delimiter-free ASCII text, a calendar-valid timestamp in
the `%y` window, byte-valued hash entries and the canonical hex string. -/
def validTx (t : Transaction) : Prop :=
  Transaction.MIN_ID ≤ t.id ∧ t.id ≤ Transaction.MAX_ID ∧
  t.group_id ≤ Transaction.MAX_GID ∧ t.process_id ≤ Transaction.MAX_PID ∧
  Transaction.INVALID_CHAR.any (fun c => t.text.contains c) = false ∧
  t.timestamp.calValid = true ∧ 1969 ≤ t.timestamp.year ∧ t.timestamp.year ≤ 2068 ∧
  (∀ b ∈ t.hash, b < 256) ∧ t.hash_str = Transaction.hash_string t.hash ∧
  ∀ c ∈ t.text, c.toNat < 128

instance (t : Transaction) : Decidable (validTx t) := by
  unfold validTx
  infer_instance

lemma validTx_parse {t : Transaction} (h : validTx t) :
    Transaction.parse (Transaction.to_string t) = .ok t := by
  obtain ⟨h1, h2, h3, h4, h5, h6, h7, h8, h9, h10, h11⟩ := h
  exact roundtrip_of_valid t h1 h2 h3 h4 h5 h6 h7 h8 h9 h10

lemma validTx_ascii {t : Transaction} (h : validTx t) :
    ∀ c ∈ Transaction.to_string t, c.toNat < 128 :=
  to_string_ascii t h.2.2.2.2.2.2.2.2.1 h.2.2.2.2.2.2.2.2.2.1 h.2.2.2.2.2.2.2.2.2.2

lemma validTx_no_nl {t : Transaction} (h : validTx t) :
    '\n' ∉ Transaction.to_string t :=
  to_string_no_nl t h.2.2.2.2.2.2.2.2.1 h.2.2.2.2.2.2.2.2.2.1 h.2.2.2.2.1

lemma validTx_ne_cr {t : Transaction} (h : validTx t) :
    (Transaction.to_string t).getLast? ≠ some '\x0d' :=
  to_string_last_ne_cr t h.2.2.2.2.2.2.2.2.1 h.2.2.2.2.2.2.2.2.2.1 h.2.2.2.2.1

/-- The verifying chain check of `get_all`, as a predicate on a record list
following an optional predecessor. -/
def chainOkB : Option Transaction → List Transaction → Bool
  | _, [] => true
  | prev, t :: rest => decide (verify_transaction t prev = .ok ()) && chainOkB (some t) rest

lemma chainOkB_cons {prev : Option Transaction} {t : Transaction} {rest : List Transaction}
    (h : chainOkB prev (t :: rest) = true) :
    verify_transaction t prev = .ok () ∧ chainOkB (some t) rest = true := by
  rw [chainOkB] at h
  simp only [Bool.and_eq_true, decide_eq_true_eq] at h
  exact h

lemma chainOkB_pair (xs : List Transaction) (p t : Transaction) :
    ∀ prev, chainOkB prev (xs ++ [p, t]) = true → Transaction.verify t p = .ok () := by
  induction xs with
  | nil =>
    intro prev h
    exact (chainOkB_cons (chainOkB_cons h).2).1
  | cons x xs ih =>
    intro prev h
    exact ih (some x) (chainOkB_cons h).2

lemma map_eq_self_of {α : Type} (l : List α) (f : α → α) (h : ∀ x ∈ l, f x = x) :
    l.map f = l := by
  induction l with
  | nil => rfl
  | cons a r ih =>
    rw [List.map_cons, h a (List.mem_cons_self a r),
      ih (fun x hx => h x (List.mem_cons_of_mem a hx))]

lemma splitNl_chain (txs : List Transaction)
    (hnl : ∀ t ∈ txs, '\n' ∉ Transaction.to_string t) :
    splitNl (txs.flatMap (fun t => Transaction.to_string t ++ ['\n'])) =
      txs.map Transaction.to_string ++ [[]] := by
  induction txs with
  | nil => rfl
  | cons t rest ih =>
    have he : (t :: rest).flatMap (fun t => Transaction.to_string t ++ ['\n']) =
        Transaction.to_string t ++
          '\n' :: rest.flatMap (fun t => Transaction.to_string t ++ ['\n']) := by
      show (Transaction.to_string t ++ ['\n']) ++ _ = _
      rw [List.append_assoc, List.singleton_append]
      rfl
    rw [he, splitNl_append, splitNl_no_nl _ (hnl t (List.mem_cons_self t rest)),
      ih (fun x hx => hnl x (List.mem_cons_of_mem t hx))]
    rfl

lemma rustLines_chain (txs : List Transaction)
    (hnl : ∀ t ∈ txs, '\n' ∉ Transaction.to_string t)
    (hcr : ∀ t ∈ txs, (Transaction.to_string t).getLast? ≠ some '\x0d') :
    rustLines (txs.flatMap (fun t => Transaction.to_string t ++ ['\n'])) =
      txs.map Transaction.to_string := by
  cases txs with
  | nil => rfl
  | cons t rest =>
    have hsplit := splitNl_chain (t :: rest) hnl
    obtain ⟨c, r, hcr'⟩ : ∃ c r,
        (t :: rest).flatMap (fun t => Transaction.to_string t ++ ['\n']) = c :: r := by
      show ∃ c r, (Transaction.to_string t ++ ['\n']) ++ _ = c :: r
      cases Transaction.to_string t with
      | nil => exact ⟨_, _, rfl⟩
      | cons a as => exact ⟨_, _, rfl⟩
    rw [hcr'] at hsplit ⊢
    rw [rustLines.eq_def]
    have hrev : (splitNl (c :: r)).reverse =
        [] :: ((t :: rest).map Transaction.to_string).reverse := by
      rw [hsplit, List.reverse_append]
      rfl
    have hstrip : (((t :: rest).map Transaction.to_string).reverse).map stripCr =
        ((t :: rest).map Transaction.to_string).reverse := by
      apply map_eq_self_of
      intro x hx
      rw [List.mem_reverse] at hx
      rcases List.mem_map.mp hx with ⟨u, hu, he2⟩
      rw [← he2]
      exact stripCr_of_not_cr _ (hcr u hu)
    simp [hrev, hstrip]
    exact ⟨stripCr_of_not_cr _ (hcr t (List.mem_cons_self t rest)),
      fun a ha => stripCr_of_not_cr _ (hcr a (List.mem_cons_of_mem t ha))⟩

lemma getAllAux_cons_ok (prev : Option Transaction) (lb : List Nat) (rest : List (List Nat))
    (line : List Char) (tx : Transaction) (txs : List Transaction)
    (hdec : utf8Decode lb = some line) (hp : Transaction.parse line = .ok tx)
    (hv : verify_transaction tx prev = .ok ())
    (hrest : SimpleFileLog.getAllAux (some tx) rest = .ok txs) :
    SimpleFileLog.getAllAux prev (lb :: rest) = .ok (tx :: txs) := by
  rw [SimpleFileLog.getAllAux]
  simp only [hdec, hp, hv, hrest]

lemma getAllAux_chain (txs : List Transaction) :
    ∀ prev, (∀ t ∈ txs, validTx t) → chainOkB prev txs = true →
      SimpleFileLog.getAllAux prev
        (txs.map (fun t => (Transaction.to_string t).map Char.toNat)) = .ok txs := by
  induction txs with
  | nil =>
    intro prev _ _
    rfl
  | cons t rest ih =>
    intro prev hv hc
    have hvt := hv t (List.mem_cons_self t rest)
    rw [List.map_cons]
    exact getAllAux_cons_ok prev _ _ (Transaction.to_string t) t rest
      (utf8Decode_ascii _ (validTx_ascii hvt)) (validTx_parse hvt) (chainOkB_cons hc).1
      (ih (some t) (fun x hx => hv x (List.mem_cons_of_mem t hx)) (chainOkB_cons hc).2)

lemma char_toNat_nl {c : Char} (h : c.toNat = 10) : c = '\n' := by
  rw [← Char.ofNat_toNat c, h]

lemma splitNlB_map (s : List Char) :
    splitNlB (s.map Char.toNat) = (splitNl s).map (List.map Char.toNat) := by
  induction s with
  | nil => rfl
  | cons c r ih =>
    by_cases hc : c = '\n'
    · subst hc
      rw [List.map_cons, show ('\n').toNat = 10 from rfl, splitNlB_cons_nl, splitNl_cons_nl, ih,
        List.map_cons]
      rfl
    · have hc10 : c.toNat ≠ 10 := fun h => hc (char_toNat_nl h)
      rw [List.map_cons, splitNlB_cons_ne _ _ hc10, splitNl_cons_ne c r hc, ih]
      cases hs : splitNl r with
      | nil => exact absurd hs (splitNl_ne_nil r)
      | cons h t => rfl

lemma stripCrB_map (l : List Char) : stripCrB (l.map Char.toNat) = (stripCr l).map Char.toNat := by
  unfold stripCrB stripCr
  rw [List.getLast?_map]
  by_cases hl : l.getLast? = some '\x0d'
  · rw [if_pos (by rw [hl]; rfl), if_pos hl]
    exact (List.map_dropLast _ _).symm
  · have hne : ¬ (l.getLast?.map Char.toNat = some 13) := by
      intro he
      cases hgl : l.getLast? with
      | none =>
        rw [hgl] at he
        exact Option.noConfusion he
      | some c =>
        rw [hgl] at he
        simp only [Option.map_some'] at he
        have h13 : c.toNat = 13 := Option.some.inj he
        have hcr2 : c = '\x0d' := by
          rw [← Char.ofNat_toNat c, h13]
        rw [hgl] at hl
        exact hl (by rw [hcr2])
    rw [if_neg hne, if_neg hl]

lemma bufLines_map (s : List Char) :
    bufLines (s.map Char.toNat) = (rustLines s).map (List.map Char.toNat) := by
  cases s with
  | nil => rfl
  | cons c r =>
    rw [List.map_cons, bufLines.eq_def, rustLines.eq_def]
    have hsm : splitNlB (c.toNat :: r.map Char.toNat) =
        (splitNl (c :: r)).map (List.map Char.toNat) := by
      rw [← List.map_cons]
      exact splitNlB_map (c :: r)
    cases hrev : (splitNl (c :: r)).reverse with
    | nil =>
      refine absurd ?_ (splitNl_ne_nil (c :: r))
      rw [← List.reverse_reverse (splitNl (c :: r)), hrev]
      rfl
    | cons last revInit =>
      have hrevB : (splitNlB (c.toNat :: r.map Char.toNat)).reverse =
          last.map Char.toNat :: revInit.map (List.map Char.toNat) := by
        rw [hsm, List.reverse_map, hrev, List.map_cons]
      have hmm2 : (revInit.map (List.map Char.toNat)).map stripCrB =
          (revInit.map stripCr).map (List.map Char.toNat) := by
        rw [List.map_map, List.map_map]
        apply List.map_congr_left
        intro a _
        exact stripCrB_map a
      simp only [hrevB, hrev]
      by_cases hlast : last = []
      · subst hlast
        rw [if_pos (show List.map Char.toNat ([] : List Char) = [] from rfl),
          if_pos (show ([] : List Char) = [] from rfl), hmm2]
        exact List.reverse_map _ _
      · rw [if_neg (fun h => hlast (List.map_eq_nil.mp h)), if_neg hlast, hmm2]
        rw [List.map_append, List.reverse_map]
        rfl

lemma lastTx_small_none (file : List Nat) (t : List Char)
    (hlen : file.length < 10240) (hdec : utf8Decode file = some t)
    (hlines : rustLines t = []) :
    SimpleFileLog.lastTx file = .ok none := by
  simp only [SimpleFileLog.lastTx, if_pos hlen, List.drop_zero, hdec, hlines]
  simp

lemma lastTx_small_one (file : List Nat) (t l1 : List Char) (t1 : Transaction)
    (hlen : file.length < 10240) (hdec : utf8Decode file = some t)
    (hlines : (rustLines t).reverse = [l1])
    (hp1 : Transaction.parse l1 = .ok t1)
    (hv : Transaction.verify_single t1 = .ok ()) :
    SimpleFileLog.lastTx file = .ok (some t1) := by
  simp only [SimpleFileLog.lastTx, if_pos hlen, List.drop_zero, hdec, hlines]
  simp [hp1, Except.toOption, verify_transaction, hv]

lemma lastTx_small_two (file : List Nat) (t l1 l2 : List Char) (rest : List (List Char))
    (t1 t2 : Transaction)
    (hlen : file.length < 10240) (hdec : utf8Decode file = some t)
    (hlines : (rustLines t).reverse = l1 :: l2 :: rest)
    (hp1 : Transaction.parse l1 = .ok t1) (hp2 : Transaction.parse l2 = .ok t2)
    (hv : Transaction.verify t1 t2 = .ok ()) :
    SimpleFileLog.lastTx file = .ok (some t1) := by
  simp only [SimpleFileLog.lastTx, if_pos hlen, List.drop_zero, hdec, hlines]
  simp [hp1, hp2, Except.toOption, verify_transaction, hv]

/-- The canonical durable file holding the given records: one `to_string`
line per record, each followed by a newline, as `SimpleFileLog::create`
writes them. -/
def chainFile (txs : List Transaction) : List Nat :=
  utf8 (txs.flatMap (fun t => Transaction.to_string t ++ ['\n']))

/-- The bytes the last two rendered lines occupy, with their newlines: what
must lie inside the 10240-byte tail chunk for recovery to see two intact
lines. -/
def lastTwoLen (txs : List Transaction) : Nat :=
  match txs.reverse with
  | [] => 0
  | [t] => (Transaction.to_string t).length + 1
  | t :: p :: _ =>
    ((Transaction.to_string p).length + 1) + ((Transaction.to_string t).length + 1)

lemma lastTwoLen_one (t : Transaction) :
    lastTwoLen [t] = (Transaction.to_string t).length + 1 := rfl

lemma lastTwoLen_concat2 (xs : List Transaction) (p t : Transaction) :
    lastTwoLen ((xs ++ [p]) ++ [t]) =
      ((Transaction.to_string p).length + 1) + ((Transaction.to_string t).length + 1) := by
  unfold lastTwoLen
  rw [List.reverse_append, List.reverse_append]
  rfl

lemma lastTx_long_one (file : List Nat) (t l1 : List Char) (t1 : Transaction)
    (hlen : ¬ file.length < 10240)
    (hdec : utf8Decode (file.drop (file.length - 10240)) = some t)
    (hlines : (rustLines t).reverse = [l1])
    (hp1 : Transaction.parse l1 = .ok t1)
    (hv : Transaction.verify_single t1 = .ok ()) :
    SimpleFileLog.lastTx file = .ok (some t1) := by
  simp only [SimpleFileLog.lastTx, if_neg hlen, hdec, hlines]
  simp [hp1, Except.toOption, verify_transaction, hv]

lemma lastTx_long_two (file : List Nat) (t l1 l2 : List Char) (rest : List (List Char))
    (t1 t2 : Transaction)
    (hlen : ¬ file.length < 10240)
    (hdec : utf8Decode (file.drop (file.length - 10240)) = some t)
    (hlines : (rustLines t).reverse = l1 :: l2 :: rest)
    (hp1 : Transaction.parse l1 = .ok t1) (hp2 : Transaction.parse l2 = .ok t2)
    (hv : Transaction.verify t1 t2 = .ok ()) :
    SimpleFileLog.lastTx file = .ok (some t1) := by
  simp only [SimpleFileLog.lastTx, if_neg hlen, hdec, hlines]
  simp [hp1, hp2, Except.toOption, verify_transaction, hv]

/-- A nonempty rendered chain ends with its final newline. -/
lemma chain_concat_nl (pre : List Transaction) (q : Transaction) :
    (pre ++ [q]).flatMap (fun t => Transaction.to_string t ++ ['\n']) =
      (pre.flatMap (fun t => Transaction.to_string t ++ ['\n']) ++ Transaction.to_string q)
        ++ ['\n'] := by
  rw [List.flatMap_append, List.append_assoc]
  congr 1
  simp

lemma map_drop_of_eq {α β : Type} (f : α → β) (l : List α) (bs : List β) (n : Nat)
    (h : bs = l.map f) : bs.drop n = (l.drop n).map f := by
  rw [h, List.map_drop]

/-- `str::lines` from the back of a buffer whose head may be torn garbage:
the last two newline-terminated lines are still recovered intact. -/
lemma rustLines_tail_two (junk p t : List Char)
    (hn1 : '\n' ∉ p) (hn2 : '\n' ∉ t)
    (hr1 : p.getLast? ≠ some '\x0d') (hr2 : t.getLast? ≠ some '\x0d') :
    (rustLines (junk ++ '\n' :: (p ++ '\n' :: (t ++ ['\n'])))).reverse =
      t :: p :: (splitNl junk).reverse.map stripCr := by
  have hsplit : splitNl (junk ++ '\n' :: (p ++ '\n' :: (t ++ ['\n']))) =
      splitNl junk ++ [p, t, []] := by
    rw [splitNl_append, splitNl_append, splitNl_no_nl p hn1, splitNl_append t [],
      splitNl_no_nl t hn2]
    rfl
  obtain ⟨c, r, hcr⟩ : ∃ c r, junk ++ '\n' :: (p ++ '\n' :: (t ++ ['\n'])) = c :: r := by
    cases junk with
    | nil => exact ⟨_, _, rfl⟩
    | cons a as => exact ⟨_, _, rfl⟩
  rw [hcr] at hsplit ⊢
  rw [rustLines.eq_def]
  have hrev : (splitNl (c :: r)).reverse = [] :: t :: p :: (splitNl junk).reverse := by
    rw [hsplit, List.reverse_append]
    rfl
  simp [hrev, stripCr_of_not_cr p hr1, stripCr_of_not_cr t hr2]

/-- A well-formed single-record chain (the record's hash is its own partial
string's digest). -/
def c4wtx : Transaction :=
  { id := 1, timestamp := scenarioTs, group_id := 0, process_id := 1, text := rstr "a",
    hash := sha256 (utf8 (Transaction.partial_string 1 scenarioTs 0 1 (rstr "a"))),
    hash_str := Transaction.hash_string
      (sha256 (utf8 (Transaction.partial_string 1 scenarioTs 0 1 (rstr "a")))) }

